import Mathlib

/-!
Shallow embedding of the diode CLI core: the schematic intermediate
representation (`crates/schematics`), the Atopile identifier normalizer
(`crates/atopile/src/normalizer.rs`), the project builder and the text
emitter (`crates/atopile/src/lib.rs`, `crates/atopile/src/writer.rs`).

Rust `HashMap`s are embedded as association lists (one admissible iteration
order), shared `Rc<RefCell<...>>` graph nodes as arena indices into lists
owned by the `Schematic`, and fallible operations as `Except`-valued
functions.  Functions on `&mut self` whose mutations happen only after all
fallible steps are embedded as `state -> state × Option error`, so that the
state returned on the error path is exactly the state the Rust code leaves
behind.  A Rust panic (`unwrap` / `expect`) is modelled as `none` in an
`Option`-valued result or a dedicated error constructor, as noted locally.
-/

namespace DiodeCli

/-- The `NormalizationError` enum of `crates/schematics/src/lib.rs`. -/
inductive NormalizationError where
  | nameConflict (s : String)
  | invalidName (s : String)
  | otherError (s : String)
deriving DecidableEq, Repr

/-- The `SchematicError` enum of `crates/schematics/src/lib.rs` (the
filesystem-free variants). -/
inductive SchematicError where
  | nameAlreadyExists (s : String)
  | nameNotFound (s : String)
  | uninitializedField (s : String)
  | normalization (e : NormalizationError)
deriving DecidableEq, Repr

/-! ## The Atopile normalizer (`crates/atopile/src/normalizer.rs`) -/

/-- One character of the source's chained
`normalized.replace("+", "P").replace("-", "_")`: the patterns are single
characters, so the two replaces act as a character map. -/
def replacePlusMinus (c : Char) : Char :=
  if c = '+' then 'P' else if c = '-' then '_' else c

/-- The character pipeline shared by `normalize_net_name` and
`normalize_port_name`: replace a leading `~` by `n`, apply the `+`/`-`
replacements, then keep only ASCII-alphanumeric characters and `_`. -/
def netNameChars (name : String) : List Char :=
  let cs := name.toList
  let cs := match cs with
    | '~' :: rest => 'n' :: rest
    | other => other
  (cs.map replacePlusMinus).filter (fun c => c.isAlphanum || c = '_')

/-- `AtopileNormalizer::normalize_net_name`: transform the characters, fail
with `InvalidName` when nothing remains, and prepend `S` when the first
remaining character is not an ASCII letter. -/
def normalize_net_name (name : String) : Except NormalizationError String :=
  match netNameChars name with
  | [] => .error (.invalidName name)
  | c :: rest =>
      if c.isAlpha then .ok (String.mk (c :: rest))
      else .ok (String.mk ('S' :: c :: rest))

/-- `AtopileNormalizer::normalize_part_name`.  The source filters to
ASCII-alphanumeric characters and then calls
`normalized.chars().next().unwrap()` BEFORE its `is_empty` check, so an
input with no ASCII-alphanumeric character panics on the `unwrap`; `none`
models that panic.  The dead `is_empty` check is kept as in the source. -/
def normalize_part_name (name : String) : Option (Except NormalizationError String) :=
  match name.toList.filter Char.isAlphanum with
  | [] => none
  | c :: rest =>
      let cs := if ¬ c.isAlpha then 'S' :: c :: rest else c :: rest
      if cs.isEmpty then some (.error (.invalidName name))
      else some (.ok (String.mk cs))

/-- `AtopileNormalizer::normalize_component_name` delegates to
`normalize_part_name`. -/
def normalize_component_name (name : String) : Option (Except NormalizationError String) :=
  normalize_part_name name

/-- `AtopileNormalizer::normalize_port_name`: prefer the signal name, fall
back to the pin name when the signal is empty, then apply the net-name
pipeline; the `InvalidName` payload is the signal name. -/
def normalize_port_name (pin_name signal_name : String) : Except NormalizationError String :=
  let start := if signal_name.isEmpty then pin_name else signal_name
  match netNameChars start with
  | [] => .error (.invalidName signal_name)
  | c :: rest =>
      if c.isAlpha then .ok (String.mk (c :: rest))
      else .ok (String.mk ('S' :: c :: rest))

/-- Claim C4: for an input whose ASCII-alphanumeric filtering leaves nothing
(e.g. `"~~~"`), `normalize_part_name` — and `normalize_component_name`,
which delegates to it — does not fail with `InvalidName`: it panics
(`unwrap` on `None`), modelled by `none`.  This contradicts the claim, which
demands an `InvalidName` error; the `is_empty` check in the source sits
after the `unwrap` and is unreachable. -/
theorem c4_all_symbol_part_name_panics :
    normalize_part_name "~~~" = none ∧ normalize_component_name "~~~" = none := by
  constructor <;> rfl

/-- Claim C7: the default net/port normalization rule maps `"~RESET"` to
`"nRESET"`, `"V+"` to `"VP"`, `"A-B"` to `"A_B"`, `"123X"` to `"S123X"`;
any input left empty by the character pipeline fails with `InvalidName`;
the port rule uses the signal name when it is nonempty (agreeing exactly
with the net rule there) and otherwise falls back to the pin name. -/
theorem c7_net_port_normalization_rules :
    normalize_net_name "~RESET" = .ok "nRESET"
    ∧ normalize_net_name "V+" = .ok "VP"
    ∧ normalize_net_name "A-B" = .ok "A_B"
    ∧ normalize_net_name "123X" = .ok "S123X"
    ∧ (∀ name, netNameChars name = [] →
        normalize_net_name name = .error (.invalidName name))
    ∧ (∀ pin sig, sig ≠ "" → normalize_port_name pin sig = normalize_net_name sig)
    ∧ (∀ pin r, normalize_port_name pin "" = .ok r ↔ normalize_net_name pin = .ok r) := by
  refine ⟨rfl, rfl, rfl, rfl, ?_, ?_, ?_⟩
  · intro name h
    simp [normalize_net_name, h]
  · intro pin sig hsig
    have hempty : sig.isEmpty = false := by
      cases he : sig.isEmpty
      · rfl
      · exact absurd ((String.isEmpty_iff sig).mp he) hsig
    simp [normalize_port_name, normalize_net_name, hempty]
  · intro pin r
    have hempty : String.isEmpty "" = true := rfl
    simp only [normalize_port_name, hempty, if_pos rfl]
    cases h : netNameChars pin with
    | nil => simp [normalize_net_name, h]
    | cons c rest => simp [normalize_net_name, h]

/-- Witness for C7 at concrete inputs: `"..."` is empty after filtering and
fails with `InvalidName`; the port rule on pin `"1"`, signal `"VCC"` agrees
with the net rule; the port rule on pin `"VCC"` with an empty signal
falls back to the pin name. -/
theorem c7_net_port_normalization_rules_witness :
    normalize_net_name "..." = .error (.invalidName "...")
    ∧ normalize_port_name "1" "VCC" = normalize_net_name "VCC"
    ∧ normalize_port_name "VCC" "" = .ok "VCC" := by
  obtain ⟨-, -, -, -, hempty, hsig, hfall⟩ := c7_net_port_normalization_rules
  refine ⟨hempty "..." (by decide), hsig "1" "VCC" (by decide), ?_⟩
  exact (hfall "VCC" "VCC").mpr rfl

/-! ## Association-list helpers (embedding of `HashMap` / `HashSet`) -/

/-- Decidable equality for `Except` results, used to evaluate the embedded
functions on concrete inputs. -/
def exceptToSum : Except ε α → ε ⊕ α
  | .error e => .inl e
  | .ok a => .inr a

instance [DecidableEq ε] [DecidableEq α] : DecidableEq (Except ε α) := fun a b =>
  decidable_of_iff (exceptToSum a = exceptToSum b)
    (by cases a <;> cases b <;> simp [exceptToSum])

/-- `HashMap::get`, on the association-list embedding. -/
def alookup (l : List (String × α)) (k : String) : Option α :=
  match l with
  | [] => none
  | (k2, v) :: rest => if k2 = k then some v else alookup rest k

/-- `HashMap::contains_key`. -/
def containsKey (l : List (String × α)) (k : String) : Bool :=
  (alookup l k).isSome

/-- `HashMap::insert` when the key may already be present: overwrite the
existing binding in place, otherwise append. -/
def insertOverwrite (l : List (String × α)) (k : String) (v : α) : List (String × α) :=
  match l with
  | [] => [(k, v)]
  | (k2, w) :: rest =>
      if k2 = k then (k2, v) :: rest else (k2, w) :: insertOverwrite rest k v

/-- Setting an arena slot to the value it already holds is a no-op. -/
theorem list_set_getD_self (l : List α) (n : Nat) (d : α) :
    l.set n (l.getD n d) = l := by
  induction l generalizing n with
  | nil => rfl
  | cons a t ih =>
      cases n with
      | zero => simp [List.getD]
      | succ m => simpa [List.getD] using ih m

/-! ## The schematic IR (`crates/schematics`)

`Rc<RefCell<Part>>` / `Rc<RefCell<Component>>` / `Rc<RefCell<Net>>` shared
references become indices into arenas owned by the `Schematic`; pointer
equality of refs becomes index equality.  A `PortRef` is owned by its part's
`ports_by_terminal_identifier` map, so a connection pair
`(ComponentRef, PortRef)` is embedded as the pair of the component's index
and the port's terminal identifier (the port itself is reachable through
the component's part, which is how the builder reads its signal). -/

/-- `Port` of `crates/schematics/src/part.rs`. -/
structure Port where
  terminal_identifier : String
  signal : String
deriving DecidableEq, Repr

/-- `Part` of `crates/schematics/src/part.rs` (the datasheet fields carry no
behavior used by the claims). -/
structure Part where
  name : String
  ports_by_terminal_identifier : List (String × Port)
  metadata : List (String × String)
deriving DecidableEq, Repr

/-- `Component` of `crates/schematics/src/component.rs`; `part` is the index
of the shared `PartRef`. -/
structure Component where
  name : String
  part : Nat
  metadata : List (String × String)
deriving DecidableEq, Repr

/-- `NetType` of `crates/schematics/src/net.rs` (informational only). -/
inductive NetType where
  | unknown | power | ground | digital | analog
deriving DecidableEq, Repr

/-- `Net` of `crates/schematics/src/net.rs`; a connection is the pair of a
component arena index and the terminal identifier of the connected port. -/
structure Net where
  name : String
  net_type : NetType
  connections : List (Nat × String)
deriving DecidableEq, Repr

/-- `Schematic` of `crates/schematics/src/lib.rs`: the three name-keyed
registries, plus the arenas realizing the shared references. -/
structure Schematic where
  partArena : List Part
  compArena : List Component
  netArena : List Net
  parts_by_name : List (String × Nat)
  components_by_name : List (String × Nat)
  nets_by_name : List (String × Nat)
deriving DecidableEq, Repr

def emptyPart : Part := ⟨"", [], []⟩
def emptyComponent : Component := ⟨"", 0, []⟩
def emptyNet : Net := ⟨"", .unknown, []⟩

/-- `Part::get_port`. -/
def Part.get_port (p : Part) (terminal_identifier : String) : Option Port :=
  alookup p.ports_by_terminal_identifier terminal_identifier

/-- `Net::connect`: `HashSet::insert` of the (component, port) pair — a
no-op when the pair is already present. -/
def Net.connect (n : Net) (conn : Nat × String) : Net :=
  if conn ∈ n.connections then n else { n with connections := n.connections ++ [conn] }

/-- `Schematic::connect`.  The source takes `&mut self` and performs the
three lookups before the single mutation, so each early `?` return leaves
the schematic untouched; the pair result returns the resulting state
together with the optional error. -/
def Schematic.connect (s : Schematic)
    (net_name component_name terminal_identifier : String) :
    Schematic × Option SchematicError :=
  match alookup s.components_by_name component_name with
  | none => (s, some (.nameNotFound component_name))
  | some cid =>
      let comp := s.compArena.getD cid emptyComponent
      let part := s.partArena.getD comp.part emptyPart
      match part.get_port terminal_identifier with
      | none => (s, some (.nameNotFound terminal_identifier))
      | some _port =>
          match alookup s.nets_by_name net_name with
          | none => (s, some (.nameNotFound net_name))
          | some nid =>
              let net := s.netArena.getD nid emptyNet
              ({ s with netArena :=
                  s.netArena.set nid (net.connect (cid, terminal_identifier)) },
                none)

/-- The inserted pair is in the connection set after `Net::connect`. -/
theorem Net.mem_connect (n : Net) (conn : Nat × String) :
    conn ∈ (n.connect conn).connections := by
  unfold Net.connect
  by_cases h : conn ∈ n.connections
  · simp [h]
  · simp [h]

/-- `Net::connect` is a no-op on an already-present pair. -/
theorem Net.connect_mem (n : Net) (conn : Nat × String)
    (h : conn ∈ n.connections) : n.connect conn = n := by
  simp [Net.connect, h]

/-- Reading back an arena slot just set, in range. -/
theorem list_getD_set_self (l : List α) (n : Nat) (a d : α) (h : n < l.length) :
    (l.set n a).getD n d = a := by
  induction l generalizing n with
  | nil => simp at h
  | cons b t ih =>
      cases n with
      | zero => simp [List.getD]
      | succ m => simpa [List.getD] using ih m (by simpa using h)

theorem connect_comp_missing {s : Schematic} {nn cn ti : String}
    (h1 : alookup s.components_by_name cn = none) :
    s.connect nn cn ti = (s, some (.nameNotFound cn)) := by
  simp only [Schematic.connect, h1]

theorem connect_port_missing {s : Schematic} {nn cn ti : String} {cid : Nat}
    (h1 : alookup s.components_by_name cn = some cid)
    (h2 : (s.partArena.getD (s.compArena.getD cid emptyComponent).part emptyPart).get_port ti
        = none) :
    s.connect nn cn ti = (s, some (.nameNotFound ti)) := by
  simp only [Schematic.connect, h1, h2]

theorem connect_net_missing {s : Schematic} {nn cn ti : String} {cid : Nat} {p : Port}
    (h1 : alookup s.components_by_name cn = some cid)
    (h2 : (s.partArena.getD (s.compArena.getD cid emptyComponent).part emptyPart).get_port ti
        = some p)
    (h3 : alookup s.nets_by_name nn = none) :
    s.connect nn cn ti = (s, some (.nameNotFound nn)) := by
  simp only [Schematic.connect, h1, h2, h3]

theorem connect_all_found {s : Schematic} {nn cn ti : String} {cid nid : Nat} {p : Port}
    (h1 : alookup s.components_by_name cn = some cid)
    (h2 : (s.partArena.getD (s.compArena.getD cid emptyComponent).part emptyPart).get_port ti
        = some p)
    (h3 : alookup s.nets_by_name nn = some nid) :
    s.connect nn cn ti =
      ({ s with netArena := s.netArena.set nid ((s.netArena.getD nid emptyNet).connect (cid, ti)) },
        none) := by
  simp only [Schematic.connect, h1, h2, h3]

/-- Claim C6: `Schematic::connect` fails exactly when the component, or the
terminal identifier on the component's part, or the net does not resolve,
and every failure is a `NameNotFound`; a failed connect leaves the
schematic unchanged; when all three resolve, the (component, port) pair is
inserted into the net's connection set, and re-connecting an
already-present pair is a no-op leaving the schematic unchanged. -/
theorem c6_connect_spec (s : Schematic) (nn cn ti : String) :
    ((s.connect nn cn ti).2 ≠ none ↔
      (alookup s.components_by_name cn = none
        ∨ (∃ cid, alookup s.components_by_name cn = some cid
            ∧ (s.partArena.getD (s.compArena.getD cid emptyComponent).part
                emptyPart).get_port ti = none)
        ∨ alookup s.nets_by_name nn = none))
    ∧ (∀ e, (s.connect nn cn ti).2 = some e → ∃ x, e = SchematicError.nameNotFound x)
    ∧ ((s.connect nn cn ti).2 ≠ none → (s.connect nn cn ti).1 = s)
    ∧ (∀ cid nid,
        alookup s.components_by_name cn = some cid →
        (s.partArena.getD (s.compArena.getD cid emptyComponent).part
            emptyPart).get_port ti ≠ none →
        alookup s.nets_by_name nn = some nid →
        nid < s.netArena.length →
        (s.connect nn cn ti).2 = none
        ∧ (s.connect nn cn ti).1
            = { s with netArena :=
                s.netArena.set nid ((s.netArena.getD nid emptyNet).connect (cid, ti)) }
        ∧ (cid, ti) ∈ ((s.connect nn cn ti).1.netArena.getD nid emptyNet).connections
        ∧ ((cid, ti) ∈ (s.netArena.getD nid emptyNet).connections →
            (s.connect nn cn ti).1 = s)) := by
  cases h1 : alookup s.components_by_name cn with
  | none =>
      rw [connect_comp_missing h1]
      refine ⟨?_, ?_, ?_, ?_⟩
      · simp
      · intro e he
        exact ⟨cn, by simpa using he.symm⟩
      · intro _; rfl
      · intro cid nid hcid
        cases hcid
  | some cid0 =>
      cases h2 : (s.partArena.getD (s.compArena.getD cid0 emptyComponent).part
          emptyPart).get_port ti with
      | none =>
          rw [connect_port_missing h1 h2]
          refine ⟨?_, ?_, ?_, ?_⟩
          · simp only [ne_eq, Option.some_ne_none, not_false_eq_true, true_iff]
            exact Or.inr (Or.inl ⟨cid0, rfl, h2⟩)
          · intro e he
            exact ⟨ti, by simpa using he.symm⟩
          · intro _; rfl
          · intro cid nid hcid hport
            injection hcid with hcid
            subst hcid
            exact absurd h2 hport
      | some p =>
          cases h3 : alookup s.nets_by_name nn with
          | none =>
              rw [connect_net_missing h1 h2 h3]
              refine ⟨?_, ?_, ?_, ?_⟩
              · constructor
                · intro _
                  exact Or.inr (Or.inr rfl)
                · intro _
                  exact Option.some_ne_none _
              · intro e he
                exact ⟨nn, by simpa using he.symm⟩
              · intro _; rfl
              · intro cid nid hcid hport hnid
                cases hnid
          | some nid0 =>
              rw [connect_all_found h1 h2 h3]
              refine ⟨?_, ?_, ?_, ?_⟩
              · constructor
                · intro h
                  exact absurd rfl h
                · rintro (hc | ⟨cid, hcid, hp⟩ | hn)
                  · cases hc
                  · injection hcid with hcid
                    subst hcid
                    rw [h2] at hp
                    cases hp
                  · cases hn
              · intro e he
                simp at he
              · intro h
                simp at h
              · intro cid nid hcid hport hnid hlen
                injection hcid with hcid
                subst hcid
                injection hnid with hnid
                subst hnid
                refine ⟨rfl, rfl, ?_, ?_⟩
                · have hset : (s.netArena.set nid0 ((s.netArena.getD nid0 emptyNet).connect
                      (cid0, ti))).getD nid0 emptyNet
                      = (s.netArena.getD nid0 emptyNet).connect (cid0, ti) :=
                    list_getD_set_self _ _ _ _ hlen
                  show (cid0, ti) ∈ ((s.netArena.set nid0
                      ((s.netArena.getD nid0 emptyNet).connect (cid0, ti))).getD nid0
                        emptyNet).connections
                  rw [hset]
                  exact Net.mem_connect _ _
                · intro hmem
                  have hnoop := Net.connect_mem (s.netArena.getD nid0 emptyNet) (cid0, ti) hmem
                  rw [hnoop, list_set_getD_self]

/-- A one-resistor schematic for the C6 witness. -/
def c6w : Schematic where
  partArena := [⟨"R", [("1", ⟨"1", "P1"⟩)], []⟩]
  compArena := [⟨"r1", 0, []⟩]
  netArena := [⟨"vdd", .power, []⟩]
  parts_by_name := [("R", 0)]
  components_by_name := [("r1", 0)]
  nets_by_name := [("vdd", 0)]

/-- Witness for C6: on a concrete one-resistor schematic, connecting
`r1`/terminal `1` to net `vdd` succeeds and records the pair; connecting to
a nonexistent net fails with `NameNotFound` and leaves the schematic
unchanged. -/
theorem c6_connect_spec_witness :
    ((c6w.connect "vdd" "r1" "1").2 = none
      ∧ (0, "1") ∈ ((c6w.connect "vdd" "r1" "1").1.netArena.getD 0 emptyNet).connections)
    ∧ ((c6w.connect "nosuch" "r1" "1").2 ≠ none
      ∧ (c6w.connect "nosuch" "r1" "1").1 = c6w) := by
  constructor
  · have h := (c6_connect_spec c6w "vdd" "r1" "1").2.2.2 0 0 rfl (by decide) rfl
      (by decide)
    exact ⟨h.1, h.2.2.1⟩
  · have hiff := (c6_connect_spec c6w "nosuch" "r1" "1").1
    have hfail : (c6w.connect "nosuch" "r1" "1").2 ≠ none :=
      hiff.mpr (Or.inr (Or.inr rfl))
    exact ⟨hfail, (c6_connect_spec c6w "nosuch" "r1" "1").2.2.1 hfail⟩

/-! ## Normalization (`Schematic::normalize`) -/

/-- The `Normalizer` trait of `crates/schematics/src/lib.rs`: four pure
functions from raw names to identifiers or `NormalizationError`. -/
structure NormalizerFns where
  normalize_component_name : String → Except NormalizationError String
  normalize_net_name : String → Except NormalizationError String
  normalize_part_name : String → Except NormalizationError String
  normalize_port_name : String → String → Except NormalizationError String

/-- The loop of `Schematic::build_normalize_map`: `new_names` accumulates
the old-name→new-name map; a freshly produced name is reported as
`NameConflict` when `new_names.contains_key(&new_name)` — i.e. when it
equals one of the previously iterated OLD names, exactly as the source
checks. -/
def build_normalize_map_go (normalizer_fn : String → Except NormalizationError String)
    (names : List String) (new_names : List (String × String)) :
    Except SchematicError (List (String × String)) :=
  match names with
  | [] => .ok new_names
  | name :: rest =>
      match normalizer_fn name with
      | .error e => .error (.normalization e)
      | .ok new_name =>
          if containsKey new_names new_name then
            .error (.normalization (.nameConflict new_name))
          else
            build_normalize_map_go normalizer_fn rest (new_names ++ [(name, new_name)])

/-- `Schematic::build_normalize_map`. -/
def build_normalize_map (names : List String)
    (normalizer_fn : String → Except NormalizationError String) :
    Except SchematicError (List (String × String)) :=
  build_normalize_map_go normalizer_fn names []

/-- The port-renaming pass of `Schematic::normalize`, inner loop over one
part's ports: normalize each port name from the terminal identifier and the
current signal; accumulate, keyed by the NEW part name, a map from terminal
identifier to normalized port name (`HashMap` inserts, so a later part
mapped to the same new name overwrites shared terminal keys). -/
def build_part_pins_ports (normalizer : NormalizerFns)
    (ports : List (String × Port)) (new_name : String)
    (part_pins : List (String × List (String × String))) :
    Except SchematicError (List (String × List (String × String))) :=
  match ports with
  | [] => .ok part_pins
  | (terminal_identifier, port) :: rest =>
      match normalizer.normalize_port_name terminal_identifier port.signal with
      | .error e => .error (.normalization e)
      | .ok new_port_name =>
          build_part_pins_ports normalizer rest new_name
            (insertOverwrite part_pins new_name
              (insertOverwrite ((alookup part_pins new_name).getD []) terminal_identifier
                new_port_name))

/-- Outer loop of the port-renaming pass, over the parts registry. -/
def build_part_pins (s : Schematic) (normalizer : NormalizerFns)
    (new_parts : List (String × String)) (entries : List (String × Nat))
    (part_pins : List (String × List (String × String))) :
    Except SchematicError (List (String × List (String × String))) :=
  match entries with
  | [] => .ok part_pins
  | (name, pid) :: rest =>
      let new_name := (alookup new_parts name).getD ""
      let part := s.partArena.getD pid emptyPart
      match build_part_pins_ports normalizer part.ports_by_terminal_identifier new_name part_pins with
      | .error e => .error e
      | .ok part_pins2 => build_part_pins s normalizer new_parts rest part_pins2

/-- The component-apply phase: rename every component through its shared
reference and re-collect the registry (a later duplicate key overwrites an
earlier one, as in `HashMap::collect`). -/
def applyComponentRenames (s : Schematic) (new_component_names : List (String × String)) :
    List Component × List (String × Nat) :=
  s.components_by_name.foldl
    (fun (acc : List Component × List (String × Nat)) entry =>
      let new_name := (alookup new_component_names entry.1).getD ""
      let comp := acc.1.getD entry.2 emptyComponent
      (acc.1.set entry.2 { comp with name := new_name },
        insertOverwrite acc.2 new_name entry.2))
    (s.compArena, [])

/-- The net-apply phase, as for components. -/
def applyNetRenames (s : Schematic) (new_nets : List (String × String)) :
    List Net × List (String × Nat) :=
  s.nets_by_name.foldl
    (fun (acc : List Net × List (String × Nat)) entry =>
      let new_name := (alookup new_nets entry.1).getD ""
      let net := acc.1.getD entry.2 emptyNet
      (acc.1.set entry.2 { net with name := new_name },
        insertOverwrite acc.2 new_name entry.2))
    (s.netArena, [])

/-- The part-apply phase: rename every part, rewrite every port's signal to
`part_pins[new_name][terminal_identifier]` (the index is always present for
states reachable through the source API — the entry was just built from
this part's ports — so the default keeps the port unchanged), and
re-collect the registry. -/
def applyPartRenames (s : Schematic) (new_parts : List (String × String))
    (part_pins : List (String × List (String × String))) :
    List Part × List (String × Nat) :=
  s.parts_by_name.foldl
    (fun (acc : List Part × List (String × Nat)) entry =>
      let new_name := (alookup new_parts entry.1).getD ""
      let part := acc.1.getD entry.2 emptyPart
      let pins := (alookup part_pins new_name).getD []
      let ports := part.ports_by_terminal_identifier.map
        (fun p => (p.1, { p.2 with signal := (alookup pins p.1).getD p.2.signal }))
      (acc.1.set entry.2
          { part with
            name := new_name
            ports_by_terminal_identifier := ports },
        insertOverwrite acc.2 new_name entry.2))
    (s.partArena, [])

/-- `Schematic::normalize`: build the three old-name→new-name maps and the
renamed-port map (each step failing with no mutation), then rewrite
components, nets and parts in place. -/
def Schematic.normalize (s : Schematic) (normalizer : NormalizerFns) :
    Schematic × Option SchematicError :=
  match build_normalize_map (s.components_by_name.map Prod.fst)
      normalizer.normalize_component_name with
  | .error e => (s, some e)
  | .ok new_component_names =>
  match build_normalize_map (s.nets_by_name.map Prod.fst)
      normalizer.normalize_net_name with
  | .error e => (s, some e)
  | .ok new_nets =>
  match build_normalize_map (s.parts_by_name.map Prod.fst)
      normalizer.normalize_part_name with
  | .error e => (s, some e)
  | .ok new_parts =>
  match build_part_pins s normalizer new_parts s.parts_by_name [] with
  | .error e => (s, some e)
  | .ok part_pins =>
      let comps := applyComponentRenames s new_component_names
      let nets := applyNetRenames s new_nets
      let parts := applyPartRenames s new_parts part_pins
      ({ s with
          compArena := comps.1, components_by_name := comps.2,
          netArena := nets.1, nets_by_name := nets.2,
          partArena := parts.1, parts_by_name := parts.2 }, none)

/-- A normalizer under which two distinct component names collide: both
`"x"` and `"y"` normalize to `"z"`; nets, parts and ports are left
unchanged.  (Claim C1 quantifies over every normalizer.) -/
def c1Normalizer : NormalizerFns where
  normalize_component_name := fun _ => .ok "z"
  normalize_net_name := fun n => .ok n
  normalize_part_name := fun n => .ok n
  normalize_port_name := fun _ sig => .ok sig

/-- A schematic with one part `"p"` and two components `"x"` and `"y"`. -/
def c1Schematic : Schematic where
  partArena := [⟨"p", [], []⟩]
  compArena := [⟨"x", 0, []⟩, ⟨"y", 0, []⟩]
  netArena := []
  parts_by_name := [("p", 0)]
  components_by_name := [("x", 0), ("y", 1)]
  nets_by_name := []

/-- Claim C1 fails on the code: the two distinct component names `"x"` and
`"y"` both normalize to `"z"`, yet `normalize` returns no error — the
conflict check compares the new name against the previously iterated OLD
names (the keys of the old→new map), not against previously produced new
names — and the schematic is mutated: both arena entries are renamed `"z"`
and the registry silently collapses to a single entry, dropping a
component.  The claim requires a `NameConflict` error and an unchanged
schematic. -/
theorem c1_name_conflict_not_detected :
    (c1Normalizer.normalize_component_name "x" = .ok "z"
      ∧ c1Normalizer.normalize_component_name "y" = .ok "z"
      ∧ "x" ≠ "y")
    ∧ (c1Schematic.normalize c1Normalizer).2 = none
    ∧ (c1Schematic.normalize c1Normalizer).1.components_by_name = [("z", 1)]
    ∧ (c1Schematic.normalize c1Normalizer).1.compArena
        = [⟨"z", 0, []⟩, ⟨"z", 0, []⟩]
    ∧ (c1Schematic.normalize c1Normalizer).1 ≠ c1Schematic := by
  exact ⟨⟨rfl, rfl, by decide⟩, by decide, by decide, by decide, by decide⟩

/-! ## The Atopile project builder (`crates/atopile/src/lib.rs`) -/

/-- The `AtopileError` enum (the filesystem variant is out of scope);
`panicked` models the source's `expect` / `unwrap` aborts. -/
inductive AtopileError where
  | schematicErr (e : SchematicError)
  | nameCollision (s : String)
  | panicked (s : String)
deriving DecidableEq, Repr

/-- `AtopileProject::sheet_for_component`: the COMPONENT's own
`"Sheetname"` metadata if present, else the project name, passed through
`AtopileNormalizer::normalize_part_name`.  The source `expect`s the result,
so `none` models the panic on a normalization failure (or on the
normalizer's own internal panic). -/
def sheet_for_component (project_name : String) (c : Component) : Option String :=
  let sheet_name := (alookup c.metadata "Sheetname").getD project_name
  match normalize_part_name sheet_name with
  | some (.ok v) => some v
  | _ => none

/-- Claim C2's reading of the sheet rule, written from the claim's words:
the value of the PART's `"Sheetname"` metadata field if present, else the
project name, then the part-name normalization rule. -/
def c2_claim_sheet_name (project_name : String) (s : Schematic) (c : Component) :
    Option String :=
  let sheet_name :=
    (alookup (s.partArena.getD c.part emptyPart).metadata "Sheetname").getD project_name
  match normalize_part_name sheet_name with
  | some (.ok v) => some v
  | _ => none

/-- Modelled from the amended spec sentence: the sheet name is the value of
the COMPONENT's `"Sheetname"` metadata field if present, else the project
name, itself passed through the part-name normalization rule before use as
a module/file identifier. -/
def amended_sheet_name_rule (project_name : String) (c : Component) : Option String :=
  match normalize_part_name ((alookup c.metadata "Sheetname").getD project_name) with
  | some (.ok v) => some v
  | _ => none

/-- A schematic whose part carries `Sheetname = "X"` in its metadata while
the component carries none. -/
def c2Schematic : Schematic where
  partArena := [⟨"R", [("1", ⟨"1", "P1"⟩)], [("Sheetname", "X")]⟩]
  compArena := [⟨"r1", 0, []⟩]
  netArena := []
  parts_by_name := [("R", 0)]
  components_by_name := [("r1", 0)]
  nets_by_name := []

/-- Claim C2 fails on the code: `sheet_for_component` reads the
COMPONENT's metadata, not the Part's.  With `Sheetname = "X"` on the part
and nothing on the component, the claim demands sheet `"X"` but the code
produces the project name `"Proj"`. -/
theorem c2_part_metadata_not_consulted :
    sheet_for_component "Proj" (c2Schematic.compArena.getD 0 emptyComponent) = some "Proj"
    ∧ c2_claim_sheet_name "Proj" c2Schematic (c2Schematic.compArena.getD 0 emptyComponent)
        = some "X"
    ∧ ("Proj" : String) ≠ "X" := by
  refine ⟨rfl, rfl, by decide⟩

/-- Claim C2 as amended: the sheet name is the value of the COMPONENT's
`"Sheetname"` metadata field if present, else the project name, and the
result is passed through the part-name normalization rule before use. -/
theorem c2_sheet_name_uses_component_metadata (project_name : String) (c : Component) :
    sheet_for_component project_name c = amended_sheet_name_rule project_name c := rfl

/-- `AtopileDefinition`: one `<name> = new <symbol_name>` instantiation;
`component` is the arena index of the originating component, when any. -/
structure AtopileDefinition where
  name : String
  symbol_name : String
  component : Option Nat
deriving DecidableEq, Repr

/-- `AtopileModule`: its ordered definitions and its net map (net name to
the list of accumulated port reference strings). -/
structure AtopileModule where
  name : String
  definitions : List AtopileDefinition
  nets : List (String × List String)
deriving DecidableEq, Repr

/-- `AtopileComponent`: the library symbol for one part; `signals` maps a
signal name to the terminal identifiers carrying it; `part` embeds the
shared `PartRef` (the IR is read-only after normalization, so the part
value stands for the reference). -/
structure AtopileComponent where
  name : String
  signals : List (String × List String)
  part : Part
deriving DecidableEq, Repr

/-- `AtopileSymbol`. -/
inductive AtopileSymbol where
  | component (c : AtopileComponent)
  | module (m : AtopileModule)
deriving DecidableEq, Repr

/-- `AtopileSymbol::name`. -/
def AtopileSymbol.name : AtopileSymbol → String
  | .component c => c.name
  | .module m => m.name

/-- `AtopileFile`. -/
structure AtopileFile where
  filename : String
  symbol_names : List String
deriving DecidableEq, Repr

/-- `AtopileProject`. -/
structure AtopileProject where
  name : String
  files_by_name : List (String × AtopileFile)
  symbols_by_name : List (String × AtopileSymbol)
  symbol_name_to_file_name : List (String × String)
deriving DecidableEq, Repr

/-- `AtopileProject::find_or_create_file` followed by the symbol-name push
done in `define_symbol`. -/
def pushFileSymbol (files : List (String × AtopileFile)) (filename sym : String) :
    List (String × AtopileFile) :=
  match alookup files filename with
  | some f => insertOverwrite files filename { f with symbol_names := f.symbol_names ++ [sym] }
  | none => files ++ [(filename, { filename := filename, symbol_names := [sym] })]

/-- `AtopileProject::define_symbol`: fail with a name collision when the
symbol name is already defined, otherwise record it in the file, the
symbol-to-file map, and the symbol table. -/
def define_symbol (p : AtopileProject) (filename : String) (symbol : AtopileSymbol) :
    Except AtopileError AtopileProject :=
  if containsKey p.symbols_by_name symbol.name then
    .error (.nameCollision symbol.name)
  else
    .ok { p with
      files_by_name := pushFileSymbol p.files_by_name filename symbol.name
      symbol_name_to_file_name :=
        insertOverwrite p.symbol_name_to_file_name symbol.name filename
      symbols_by_name := p.symbols_by_name ++ [(symbol.name, symbol)] }

/-- `AtopileProject::find_module`: the named symbol when it is a module. -/
def find_module (p : AtopileProject) (module_name : String) : Option AtopileModule :=
  match alookup p.symbols_by_name module_name with
  | some (.module m) => some m
  | _ => none

/-- Mutation through the `&mut AtopileModule` returned by `find_module`:
rewrite the named module in place. -/
def update_module (p : AtopileProject) (module_name : String)
    (f : AtopileModule → AtopileModule) : AtopileProject :=
  { p with symbols_by_name := p.symbols_by_name.map (fun e =>
      if e.1 = module_name then
        match e.2 with
        | .module m => (e.1, .module (f m))
        | other => (e.1, other)
      else e) }

/-- The signal grouping of step 1 of `from_schematic`:
`signals.entry(port.signal).or_insert_with(Vec::new).push(pin_name)` over
the part's ports. -/
def partSignals (ports : List (String × Port)) : List (String × List String) :=
  ports.foldl (fun acc pp =>
    insertOverwrite acc pp.2.signal (((alookup acc pp.2.signal).getD []) ++ [pp.1])) []

/-- Step 1 of `from_schematic`: one library component symbol per part, in
file `library/<part>.ato`. -/
def partsPhaseGo (s : Schematic) (entries : List (String × Nat)) (p : AtopileProject) :
    Except AtopileError AtopileProject :=
  match entries with
  | [] => .ok p
  | (_, pid) :: rest =>
      let part := s.partArena.getD pid emptyPart
      let symbol := AtopileSymbol.component
        { name := part.name
          signals := partSignals part.ports_by_terminal_identifier
          part := part }
      match define_symbol p ("library/" ++ part.name ++ ".ato") symbol with
      | .error e => .error e
      | .ok p2 => partsPhaseGo s rest p2

/-- Step 2 of `from_schematic`: for each component, compute its sheet,
lazily create the sheet module (in file `<sheet>.ato`) and append the
component's definition to it; `sheet_names` accumulates the encountered
sheets (the `HashSet` in the source). -/
def componentsPhaseGo (s : Schematic) (entries : List (String × Nat))
    (p : AtopileProject) (sheet_names : List String) :
    Except AtopileError (AtopileProject × List String) :=
  match entries with
  | [] => .ok (p, sheet_names)
  | (_, cid) :: rest =>
      let comp := s.compArena.getD cid emptyComponent
      match sheet_for_component p.name comp with
      | none => .error (.panicked "failed to normalize sheet name")
      | some sheet_name =>
          let sheet_names2 :=
            if sheet_name ∈ sheet_names then sheet_names else sheet_names ++ [sheet_name]
          let created : Except AtopileError AtopileProject :=
            if (find_module p sheet_name).isSome then .ok p
            else define_symbol p (sheet_name ++ ".ato")
              (.module { name := sheet_name, definitions := [], nets := [] })
          match created with
          | .error e => .error e
          | .ok p2 =>
              match find_module p2 sheet_name with
              | none => .error (.panicked "module not found")
              | some _ =>
                  let p3 := update_module p2 sheet_name (fun m =>
                    { m with definitions := m.definitions ++
                        [{ name := comp.name
                           symbol_name := (s.partArena.getD comp.part emptyPart).name
                           component := some cid }] })
                  componentsPhaseGo s rest p3 sheet_names2

/-- `str::to_lowercase`, as a character map (the names this development
lowers are ASCII, where `Char.toLower` agrees with the Rust full-Unicode
lowering). -/
def strToLower (s : String) : String := String.mk (s.data.map Char.toLower)

/-- Step 3 of `from_schematic`: the root module, named after the project,
in file `<lowercased project name>.ato`. -/
def rootPhase (p : AtopileProject) : Except AtopileError AtopileProject :=
  define_symbol p (strToLower p.name ++ ".ato")
    (.module { name := p.name, definitions := [], nets := [] })

/-- The sheets of a net's connections, in connection order (the source
recomputes `sheet_for_component` per connection; a `none` anywhere is the
`expect` panic inside `sheet_for_component`). -/
def netSheets (s : Schematic) (project_name : String) (conns : List (Nat × String)) :
    Option (List String) :=
  match conns with
  | [] => some []
  | conn :: rest =>
      match sheet_for_component project_name (s.compArena.getD conn.1 emptyComponent) with
      | none => none
      | some sh =>
          match netSheets s project_name rest with
          | none => none
          | some shs => some (sh :: shs)

/-- The signal of the port a connection refers to, read through the
component's part (`connect` resolved the port there). -/
def connSignal (s : Schematic) (conn : Nat × String) : String :=
  match (s.partArena.getD (s.compArena.getD conn.1 emptyComponent).part
      emptyPart).get_port conn.2 with
  | some port => port.signal
  | none => ""

/-- The reference string recorded for one connection: fully qualified
`<sheet>.<component>.<signal>` in the root case, `<component>.<signal>` in
the sheet-local case. -/
def connRef (s : Schematic) (place_in_root : Bool) (sheet : String) (conn : Nat × String) :
    String :=
  if place_in_root then
    sheet ++ "." ++ (s.compArena.getD conn.1 emptyComponent).name ++ "." ++ connSignal s conn
  else
    (s.compArena.getD conn.1 emptyComponent).name ++ "." ++ connSignal s conn

/-- Step 4 of `from_schematic`: scope each net (root when it has no
connection or its connections span several sheets, else the single sheet)
and append one reference string per connection to the owning module's net
entry. -/
def netsPhaseGo (s : Schematic) (entries : List (String × Nat)) (p : AtopileProject) :
    Except AtopileError AtopileProject :=
  match entries with
  | [] => .ok p
  | (_, nid) :: rest =>
      let net := s.netArena.getD nid emptyNet
      let net_name := net.name
      match netSheets s p.name net.connections with
      | none => .error (.panicked "failed to normalize sheet name")
      | some sheets =>
          let place_in_root := sheets.isEmpty || !(sheets.all (fun sh => sh == sheets.headD ""))
          let net_module := if place_in_root then p.name else sheets.headD ""
          match find_module p net_module with
          | none => .error (.panicked "module not found")
          | some _ =>
              let p2 := (net.connections.zip sheets).foldl (fun acc cs =>
                update_module acc net_module (fun m =>
                  { m with nets := (insertOverwrite m.nets net_name
                      (((alookup m.nets net_name).getD []) ++
                        [connRef s place_in_root cs.2 cs.1])) })) p
              netsPhaseGo s rest p2

/-- Step 5 of `from_schematic`: one definition per encountered sheet,
appended to the root module. -/
def sheetsPhase (sheet_names : List String) (p : AtopileProject) :
    Except AtopileError AtopileProject :=
  match find_module p p.name with
  | none => .error (.panicked "root module not found")
  | some _ => .ok (sheet_names.foldl (fun acc sheet_name =>
      update_module acc p.name (fun m =>
        { m with definitions := m.definitions ++
            [{ name := sheet_name, symbol_name := sheet_name, component := none }] })) p)

/-- The capitalization at the top of `from_schematic`:
`name.chars().next().unwrap().to_uppercase().to_string() + &name[1..]`.
The `unwrap` panics on an empty name (modelled by `none`); `Char.toUpper`
agrees with the full-Unicode `to_uppercase` on ASCII, and every claim is
instantiated on ASCII names. -/
def capitalize_project_name (name : String) : Option String :=
  match name.toList with
  | [] => none
  | c :: rest => some (String.mk (c.toUpper :: rest))

/-- `AtopileProject::from_schematic`. -/
def from_schematic (name : String) (s : Schematic) : Except AtopileError AtopileProject :=
  match capitalize_project_name name with
  | none => .error (.panicked "empty project name")
  | some pname =>
      let p0 : AtopileProject :=
        { name := pname, files_by_name := [], symbols_by_name := []
          symbol_name_to_file_name := [] }
      match partsPhaseGo s s.parts_by_name p0 with
      | .error e => .error e
      | .ok p1 =>
      match componentsPhaseGo s s.components_by_name p1 [] with
      | .error e => .error e
      | .ok (p2, sheet_names) =>
      match rootPhase p2 with
      | .error e => .error e
      | .ok p3 =>
      match netsPhaseGo s s.nets_by_name p3 with
      | .error e => .error e
      | .ok p4 => sheetsPhase sheet_names p4

/-- `HashSet::insert` on the import pair set: append when absent. -/
def insertPair (l : List (String × String)) (x : String × String) :
    List (String × String) :=
  if x ∈ l then l else l ++ [x]

/-- Inner loop of `AtopileProject::collect_imports`, over one module's
definitions: record `(defining file, symbol)` for every definition whose
symbol has a defining file. -/
def collect_imports_defs (symfiles : List (String × String))
    (defs : List AtopileDefinition) (acc : List (String × String)) :
    List (String × String) :=
  match defs with
  | [] => acc
  | d :: rest =>
      match alookup symfiles d.symbol_name with
      | some file_name =>
          collect_imports_defs symfiles rest (insertPair acc (file_name, d.symbol_name))
      | none => collect_imports_defs symfiles rest acc

/-- Outer loop of `collect_imports`, over the file's symbols.  (A symbol
name absent from the table would make the source panic; that is unreachable
for projects built by `from_schematic`, and such a name contributes
nothing here.) -/
def collect_imports_syms (p : AtopileProject) (names : List String)
    (acc : List (String × String)) : List (String × String) :=
  match names with
  | [] => acc
  | n :: rest =>
      match alookup p.symbols_by_name n with
      | some (.module m) =>
          collect_imports_syms p rest
            (collect_imports_defs p.symbol_name_to_file_name m.definitions acc)
      | _ => collect_imports_syms p rest acc

/-- `AtopileProject::collect_imports`: the set of `(filename, symbol)`
pairs to import in one file, as an insertion-ordered duplicate-free list. -/
def collect_imports (p : AtopileProject) (filename : String) :
    List (String × String) :=
  collect_imports_syms p
    ((alookup p.files_by_name filename).elim [] AtopileFile.symbol_names) []

/-- `Result::is_ok`. -/
def exceptIsOk : Except ε α → Bool
  | .ok _ => true
  | .error _ => false

/-- The schematic for the C10 counterexample: one part, one component with
no `Sheetname` metadata (its sheet defaults to the project name). -/
def c10Schematic : Schematic where
  partArena := [⟨"R", [("1", ⟨"1", "P1"⟩)], []⟩]
  compArena := [⟨"r1", 0, []⟩]
  netArena := []
  parts_by_name := [("R", 0)]
  components_by_name := [("r1", 0)]
  nets_by_name := []

/-- Claim C10 fails as stated: with project name `"My proj"`, the
component's sheet defaults to the project name, but the sheet module is
registered under the NORMALIZED name `"Myproj"` while the root module is
registered under the unnormalized capitalized name `"My proj"` — no
collision, and `from_schematic` succeeds. -/
theorem c10_no_collision_when_normalization_changes_name :
    alookup (c10Schematic.compArena.getD 0 emptyComponent).metadata "Sheetname" = none
    ∧ sheet_for_component "My proj" (c10Schematic.compArena.getD 0 emptyComponent)
        = some "Myproj"
    ∧ exceptIsOk (from_schematic "My proj" c10Schematic) = true := by
  refine ⟨rfl, rfl, ?_⟩
  decide

/-! ## The writer (`crates/atopile/src/writer.rs`) and the emitter -/

/-- `line.trim().is_empty()` of the source: the line holds only whitespace.
(Every non-blank line the emitter produces contains a non-whitespace ASCII
character, so the `trim` formulation and this one agree on all emitted
lines.) -/
def blankLine (s : String) : Bool := s.data.all Char.isWhitespace

/-- The state of `AtopileWriter`: indent level and whether the last written
line was blank; the output text is accumulated alongside. -/
structure WriterState where
  indent_level : Nat
  last_line_empty : Bool
deriving DecidableEq, Repr

/-- `AtopileWriter::new`: indent 0, `last_line_empty = true`. -/
def newWriter : WriterState := ⟨0, true⟩

/-- `write_indentation`: 4 spaces per level. -/
def indentPrefix : Nat → String
  | 0 => ""
  | n + 1 => indentPrefix n ++ "    "

/-- `AtopileWriter::write_line`: a blank line is written as-is and sets the
flag, a non-blank line is prefixed by the indentation and clears it. -/
def write_line (w : WriterState) (line : String) : WriterState × List String :=
  if blankLine line then
    ({ w with last_line_empty := true }, [line])
  else
    ({ w with last_line_empty := false }, [indentPrefix w.indent_level ++ line])

/-- `AtopileWriter::ensure_break`: emit a blank line only when the previous
line was non-blank. -/
def ensure_break (w : WriterState) : WriterState × List String :=
  if w.last_line_empty then (w, []) else write_line w ""

/-- `AtopileWriter::start_block`: write the header line and indent. -/
def start_block (w : WriterState) (line : String) : WriterState × List String :=
  let r := write_line w line
  ({ r.1 with indent_level := r.1.indent_level + 1 }, r.2)

/-- `AtopileWriter::end_block`: dedent (saturating at zero, as in the
source's guarded decrement). -/
def end_block (w : WriterState) : WriterState × List String :=
  ({ w with indent_level := w.indent_level - 1 }, [])

/-- Writer steps folded over a list, concatenating their output. -/
def wfold (f : α → WriterState → WriterState × List String) (xs : List α)
    (w : WriterState) : WriterState × List String :=
  match xs with
  | [] => (w, [])
  | x :: rest =>
      let r := f x w
      let r2 := wfold f rest r.1
      (r2.1, r.2 ++ r2.2)

/-- Sequential composition of writer steps: run the second from the first's
resulting state and concatenate the output. -/
def wthen (r : WriterState × List String)
    (f : WriterState → WriterState × List String) : WriterState × List String :=
  ((f r.1).1, r.2 ++ (f r.1).2)

/-- Modelled from the spec: the `natord` crate (an external dependency, not
part of this repository) supplies the natural, numeric-aware comparator —
"a comparator splitting each string into alternating alpha/numeric runs and
comparing numeric runs by value".  A digit run keys as `(0, value)`, any
other character as `(1, code point)`; key lists compare lexicographically. -/
def digitsVal (cs : List Char) : Nat :=
  cs.foldl (fun acc c => acc * 10 + (c.toNat - 48)) 0

/-- The natural-order key of a string. -/
def natKey (s : String) : List (Nat ×ₗ Nat) :=
  (s.toList.splitBy (fun a b => a.isDigit && b.isDigit)).map (fun g =>
    match g with
    | [] => toLex (1, 0)
    | c :: _ => if c.isDigit then toLex (0, digitsVal g) else toLex (1, c.toNat))

/-- Natural (numeric-aware) order on strings. -/
def natLe (a b : String) : Prop := natKey a ≤ natKey b

instance : DecidableRel natLe := fun a b =>
  inferInstanceAs (Decidable (natKey a ≤ natKey b))

instance : IsTotal String natLe := ⟨fun a b => le_total (natKey a) (natKey b)⟩

instance : IsTrans String natLe := ⟨fun _ _ _ h1 h2 => le_trans h1 h2⟩

/-- Natural order on import pairs, by filename — the comparator of
`write_file`'s `imports.sort_by(|a, b| compare(&a.0, &b.0))`. -/
def natLeFst (a b : String × String) : Prop := natLe a.1 b.1

instance : DecidableRel natLeFst := fun a b =>
  inferInstanceAs (Decidable (natKey a.1 ≤ natKey b.1))

instance : IsTotal (String × String) natLeFst :=
  ⟨fun a b => le_total (natKey a.1) (natKey b.1)⟩

instance : IsTrans (String × String) natLeFst :=
  ⟨fun _ _ _ h1 h2 => le_trans h1 h2⟩

/-- Natural order on definitions, by instance name — the comparator of
`write_module`'s definition sort. -/
def natLeDef (a b : AtopileDefinition) : Prop := natLe a.name b.name

instance : DecidableRel natLeDef := fun a b =>
  inferInstanceAs (Decidable (natKey a.name ≤ natKey b.name))

/-- Rust's `String` `Ord`, used by the plain `sort()` calls: lexicographic
order on the characters (UTF-8 byte order coincides with code-point
order). -/
def strLe (a b : String) : Prop := a.data ≤ b.data

instance : DecidableRel strLe := fun a b =>
  inferInstanceAs (Decidable (a.data ≤ b.data))

instance : IsTotal String strLe := ⟨fun a b => le_total a.data b.data⟩

instance : IsTrans String strLe := ⟨fun _ _ _ h1 h2 => le_trans h1 h2⟩

theorem strLe_antisymm {a b : String} (h1 : strLe a b) (h2 : strLe b a) : a = b := by
  cases a
  cases b
  exact congrArg String.mk (le_antisymm h1 h2)

/-- `Vec::dedup`: remove consecutive duplicates. -/
def dedupAdjacent : List String → List String
  | [] => []
  | [a] => [a]
  | a :: b :: rest =>
      if a = b then dedupAdjacent (b :: rest) else a :: dedupAdjacent (b :: rest)

/-- `AtopileProject::write_component`: header block, signals sorted
naturally, each with its naturally sorted pin bindings and a blank
separator, then optional `mpn` / `footprint` lines from the part's
metadata. -/
def write_component (c : AtopileComponent) (w : WriterState) :
    WriterState × List String :=
  wthen (wthen (wthen (wthen
      (start_block w ("component " ++ c.name ++ ":"))
      (wfold (fun signal_name wst =>
          wthen (wthen
              (write_line wst ("signal " ++ signal_name))
              (wfold (fun pin wst2 => write_line wst2 (signal_name ++ " ~ pin " ++ pin))
                (((alookup c.signals signal_name).getD []).insertionSort natLe)))
            (fun wst3 => write_line wst3 ""))
        ((c.signals.map Prod.fst).insertionSort natLe)))
      (fun wst => match alookup c.part.metadata "MPN" with
        | some v => write_line wst ("mpn = \"" ++ v ++ "\"")
        | none => (wst, [])))
      (fun wst => match alookup c.part.metadata "Footprint" with
        | some v => write_line wst ("footprint = \"" ++ v ++ "\"")
        | none => (wst, [])))
    end_block

/-- One net inside `write_module`: sort (plain string order) and dedup the
references; fewer than two remaining references produce no lines at all,
otherwise a `signal` line, one `~` binding per reference, and a blank
separator. -/
def write_module_net (net_name : String) (refs : List String) (w : WriterState) :
    WriterState × List String :=
  let sorted_ports := dedupAdjacent (refs.insertionSort strLe)
  if sorted_ports.length < 2 then (w, [])
  else
    let r := write_line w ("signal " ++ net_name)
    let r2 := wfold (fun port wst =>
        write_line wst (net_name ++ " ~ " ++ port)) sorted_ports r.1
    let r3 := write_line r2.1 ""
    (r3.1, r.2 ++ r2.2 ++ r3.2)

/-- `AtopileProject::write_module`: header block, definitions sorted
naturally by instance name (each with an optional designator line and an
`ensure_break`), then nets sorted naturally by name. -/
def write_module (m : AtopileModule) (w : WriterState) :
    WriterState × List String :=
  wthen (wthen (wthen
      (start_block w ("module " ++ m.name ++ ":"))
      (wfold (fun (d : AtopileDefinition) wst =>
          wthen (wthen
              (write_line wst (d.name ++ " = new " ++ d.symbol_name))
              (fun wst2 => if d.component.isSome then
                  write_line wst2 (d.name ++ ".designator = \"" ++ d.name ++ "\"")
                else (wst2, [])))
            ensure_break)
        (m.definitions.insertionSort natLeDef)))
      (wfold (fun nn wst => write_module_net nn ((alookup m.nets nn).getD []) wst)
        ((m.nets.map Prod.fst).insertionSort natLe)))
    end_block

/-- `AtopileProject::write_file` on a fresh writer: the naturally sorted
lines of imports, a blank separator when any import exists, then the file's
symbols in plain lexicographic order.  (The source's `unwrap` on a missing
symbol is unreachable for built projects; such a name yields no output.) -/
def write_file_run (p : AtopileProject) (file : AtopileFile) :
    WriterState × List String :=
  let imports := (collect_imports p file.filename).insertionSort natLeFst
  wthen (wthen
      (wfold (fun (im : String × String) wst =>
          write_line wst ("from \"" ++ im.1 ++ "\" import " ++ im.2)) imports newWriter)
      (fun wst => if imports.length > 0 then write_line wst "" else (wst, [])))
    (wfold (fun sn wst =>
        match alookup p.symbols_by_name sn with
        | some (.component c) => write_component c wst
        | some (.module m2) => write_module m2 wst
        | none => (wst, [])) (file.symbol_names.insertionSort strLe))

/-- The text of one compilation unit, as a list of lines. -/
def write_file_lines (p : AtopileProject) (file : AtopileFile) : List String :=
  (write_file_run p file).2

/-! ## Facts about blank lines and `dedupAdjacent` -/

theorem blankLine_append (s t : String) :
    blankLine (s ++ t) = (blankLine s && blankLine t) := by
  simp [blankLine, String.data_append, List.all_append]

/-- A string whose left part is non-blank is non-blank. -/
theorem blankLine_appL (s t : String) (h : blankLine s = false) :
    blankLine (s ++ t) = false := by
  rw [blankLine_append, h, Bool.false_and]

/-- A string whose right part is non-blank is non-blank. -/
theorem blankLine_appR (s t : String) (h : blankLine t = false) :
    blankLine (s ++ t) = false := by
  rw [blankLine_append, h, Bool.and_false]

theorem dedupAdjacent_sublist (l : List String) : (dedupAdjacent l).Sublist l := by
  induction l with
  | nil => simp [dedupAdjacent]
  | cons a t ih =>
      cases t with
      | nil => simp [dedupAdjacent]
      | cons b rest =>
          by_cases h : a = b
          · simp only [dedupAdjacent, if_pos h]
            exact ih.cons a
          · simp only [dedupAdjacent, if_neg h]
            exact ih.cons₂ a

theorem mem_dedupAdjacent {x : String} : ∀ {l : List String}, x ∈ dedupAdjacent l ↔ x ∈ l := by
  intro l
  constructor
  · intro h
    exact (dedupAdjacent_sublist l).subset h
  · intro h
    induction l with
    | nil => cases h
    | cons a t ih =>
        cases t with
        | nil => simpa [dedupAdjacent] using h
        | cons b rest =>
            by_cases hab : a = b
            · simp only [dedupAdjacent, if_pos hab]
              rcases List.mem_cons.mp h with rfl | h2
              · exact ih (by simp [hab])
              · exact ih h2
            · simp only [dedupAdjacent, if_neg hab]
              rcases List.mem_cons.mp h with rfl | h2
              · exact List.mem_cons_self _ _
              · exact List.mem_cons_of_mem _ (ih h2)

theorem dedupAdjacent_nodup : ∀ {l : List String},
    l.Sorted strLe → (dedupAdjacent l).Nodup := by
  intro l
  induction l with
  | nil => intro _; simp [dedupAdjacent]
  | cons a t ih =>
      intro hs
      cases t with
      | nil => simp [dedupAdjacent]
      | cons b rest =>
          have hcons := List.sorted_cons.mp hs
          have hab : strLe a b := hcons.1 b (List.mem_cons_self _ _)
          have hs2 : (b :: rest).Sorted strLe := hcons.2
          by_cases h : a = b
          · simp only [dedupAdjacent, if_pos h]
            exact ih hs2
          · simp only [dedupAdjacent, if_neg h]
            refine List.nodup_cons.mpr ⟨?_, ih hs2⟩
            intro hmem
            have hmem2 : a ∈ b :: rest := mem_dedupAdjacent.mp hmem
            rcases List.mem_cons.mp hmem2 with rfl | hmem3
            · exact h rfl
            · have hba : strLe b a := (List.sorted_cons.mp hs2).1 a hmem3
              exact h (strLe_antisymm hab hba)

/-- The sorted-and-deduplicated reference list of `write_module_net`:
sorted, duplicate-free, and carrying exactly the distinct references. -/
theorem sorted_dedup_spec (refs : List String) :
    (dedupAdjacent (refs.insertionSort strLe)).Sorted strLe
    ∧ (dedupAdjacent (refs.insertionSort strLe)).Nodup
    ∧ (dedupAdjacent (refs.insertionSort strLe)).toFinset = refs.toFinset
    ∧ (dedupAdjacent (refs.insertionSort strLe)).length = refs.toFinset.card := by
  have hsorted := List.sorted_insertionSort strLe refs
  have hnodup := dedupAdjacent_nodup hsorted
  have hfin : (dedupAdjacent (refs.insertionSort strLe)).toFinset
      = refs.toFinset := by
    ext x
    simp only [List.mem_toFinset]
    rw [mem_dedupAdjacent]
    exact (List.perm_insertionSort strLe refs).mem_iff
  refine ⟨hsorted.sublist (dedupAdjacent_sublist _), hnodup, hfin, ?_⟩
  rw [← hfin]
  exact (List.toFinset_card_of_nodup hnodup).symm

/-- Output and indent of a fold of single non-blank `write_line`s. -/
theorem wfold_write_line_out (g : α → String) (hg : ∀ x, blankLine (g x) = false) :
    ∀ (xs : List α) (w : WriterState),
      (wfold (fun x wst => write_line wst (g x)) xs w).2
          = xs.map (fun x => indentPrefix w.indent_level ++ g x)
      ∧ (wfold (fun x wst => write_line wst (g x)) xs w).1.indent_level
          = w.indent_level := by
  intro xs
  induction xs with
  | nil => intro w; exact ⟨rfl, rfl⟩
  | cons x rest ih =>
      intro w
      have hx := hg x
      have hstep : write_line w (g x)
          = ({ w with last_line_empty := false }, [indentPrefix w.indent_level ++ g x]) := by
        simp [write_line, hx]
      constructor
      · show (wfold _ (x :: rest) w).2 = _
        simp only [wfold, hstep, List.map_cons]
        rw [(ih { w with last_line_empty := false }).1]
        rfl
      · show (wfold _ (x :: rest) w).1.indent_level = _
        simp only [wfold, hstep]
        exact (ih { w with last_line_empty := false }).2

/-- Claim C8: when emitting a module, a net whose reference list has fewer
than two distinct references (the code's sorted-and-deduplicated length
test agrees with distinct-set cardinality) produces no output lines at all,
while a net with two and more distinct references is emitted as its
`signal` declaration followed by one binding per reference — the references
deduplicated (no duplicates remain), sorted, and exactly the distinct
original references — and a blank separator.  `write_module` emits each net
through this very function. -/
theorem c8_trivial_nets_skipped (net_name : String) (refs : List String) (w : WriterState) :
    (refs.toFinset.card < 2 → write_module_net net_name refs w = (w, []))
    ∧ (2 ≤ refs.toFinset.card →
        (write_module_net net_name refs w).2
          = (indentPrefix w.indent_level ++ ("signal " ++ net_name))
              :: ((dedupAdjacent (refs.insertionSort strLe)).map
                  (fun port => indentPrefix w.indent_level ++ (net_name ++ " ~ " ++ port))
                ++ [""])
        ∧ (dedupAdjacent (refs.insertionSort strLe)).Nodup
        ∧ (dedupAdjacent (refs.insertionSort strLe)).Sorted strLe
        ∧ (dedupAdjacent (refs.insertionSort strLe)).toFinset
            = refs.toFinset) := by
  obtain ⟨hsorted, hnodup, hfin, hlen⟩ := sorted_dedup_spec refs
  constructor
  · intro hcard
    have hl : (dedupAdjacent (refs.insertionSort strLe)).length < 2 := by
      rw [hlen]; exact hcard
    simp only [write_module_net, if_pos hl]
  · intro hcard
    have hl : ¬ (dedupAdjacent (refs.insertionSort strLe)).length < 2 := by
      rw [hlen]; omega
    refine ⟨?_, hnodup, hsorted, hfin⟩
    have hsig : blankLine ("signal " ++ net_name) = false :=
      blankLine_appL "signal " net_name (by decide)
    have hbind : ∀ port : String, blankLine (net_name ++ " ~ " ++ port) = false :=
      fun port => blankLine_appL _ port (blankLine_appR net_name " ~ " (by decide))
    have hsigstep : write_line w ("signal " ++ net_name)
        = ({ w with last_line_empty := false },
            [indentPrefix w.indent_level ++ ("signal " ++ net_name)]) := by
      simp [write_line, hsig]
    have hblankstep : ∀ w2 : WriterState, write_line w2 ""
        = ({ w2 with last_line_empty := true }, [""]) := by
      intro w2
      simp [write_line, blankLine]
    simp only [write_module_net, if_neg hl, hsigstep, hblankstep]
    rw [(wfold_write_line_out (fun port : String => net_name ++ " ~ " ++ port) hbind
      (dedupAdjacent (refs.insertionSort strLe))
      { w with last_line_empty := false }).1]
    simp

/-! ## No doubled blank lines (claim C9) -/

/-- No two consecutive blank lines. -/
def noDoubledBlank (lines : List String) : Prop :=
  List.Chain' (fun a b => ¬(blankLine a = true ∧ blankLine b = true)) lines

/-- A well-behaved emission step relative to the incoming writer state: the
emitted chunk has no doubled blank line, it begins with a blank line only
when the previous line was non-blank, and the resulting
`last_line_empty` flag reflects the last line written (or carries over when
nothing was written). -/
def okChunk (w : WriterState) (r : WriterState × List String) : Prop :=
  noDoubledBlank r.2
  ∧ (∀ h, r.2.head? = some h → blankLine h = true → w.last_line_empty = false)
  ∧ r.1.last_line_empty = ((r.2.getLast?).elim w.last_line_empty blankLine)

theorem okChunk_seq {w : WriterState} {r1 r2 : WriterState × List String}
    (h1 : okChunk w r1) (h2 : okChunk r1.1 r2) :
    okChunk w (r2.1, r1.2 ++ r2.2) := by
  obtain ⟨hdb1, hhead1, hflag1⟩ := h1
  obtain ⟨hdb2, hhead2, hflag2⟩ := h2
  refine ⟨?_, ?_, ?_⟩
  · rw [noDoubledBlank, List.chain'_append]
    refine ⟨hdb1, hdb2, ?_⟩
    intro x hx y hy hxy
    have hfalse := hhead2 y (Option.mem_def.mp hy) hxy.2
    rw [hflag1, Option.mem_def.mp hx] at hfalse
    simp only [Option.elim] at hfalse
    rw [hxy.1] at hfalse
    cases hfalse
  · intro h hh hb
    cases hr1 : r1.2 with
    | nil =>
        rw [hr1] at hflag1
        simp only [List.getLast?, Option.elim] at hflag1
        rw [hr1] at hh
        simp only [List.nil_append] at hh
        rw [← hflag1]
        exact hhead2 h hh hb
    | cons a t =>
        rw [hr1] at hh
        simp only [List.cons_append, List.head?_cons, Option.some_inj] at hh
        refine hhead1 h ?_ hb
        rw [hr1, hh]
        rfl
  · cases hg : r2.2.getLast? with
    | none =>
        have hnil : r2.2 = [] := List.getLast?_eq_none_iff.mp hg
        rw [hnil, List.append_nil]
        rw [hg] at hflag2
        simp only [Option.elim] at hflag2
        rw [hflag2, hflag1]
    | some y =>
        rw [List.getLast?_append, hg]
        rw [hg] at hflag2
        simpa using hflag2

theorem okChunk_wthen {w : WriterState} {r : WriterState × List String}
    {f : WriterState → WriterState × List String}
    (h1 : okChunk w r) (h2 : okChunk r.1 (f r.1)) :
    okChunk w (wthen r f) :=
  okChunk_seq h1 h2

theorem okChunk_wfold {f : α → WriterState → WriterState × List String}
    (hf : ∀ x w, okChunk w (f x w)) :
    ∀ (xs : List α) (w : WriterState), okChunk w (wfold f xs w) := by
  intro xs
  induction xs with
  | nil =>
      intro w
      refine ⟨List.chain'_nil, ?_, rfl⟩
      intro h hh
      simp [wfold] at hh
  | cons x rest ih =>
      intro w
      exact okChunk_seq (hf x w) (ih (f x w).1)

/-- A step that writes nothing and keeps the flag. -/
theorem okChunk_pure {w w2 : WriterState}
    (h : w2.last_line_empty = w.last_line_empty) : okChunk w (w2, []) := by
  refine ⟨List.chain'_nil, ?_, h⟩
  intro x hh
  simp at hh

theorem okChunk_write_line_nonblank {line : String} (h : blankLine line = false)
    (w : WriterState) : okChunk w (write_line w line) := by
  have hout : blankLine (indentPrefix w.indent_level ++ line) = false := by
    rw [blankLine_append, h, Bool.and_false]
  simp only [write_line, h, Bool.false_eq_true, if_false]
  refine ⟨List.chain'_singleton _, ?_, ?_⟩
  · intro x hx hb
    simp only [List.head?_cons, Option.some_inj] at hx
    subst hx
    rw [hout] at hb
    cases hb
  · simp [List.getLast?, hout]

theorem okChunk_write_line_blank {w : WriterState} (hw : w.last_line_empty = false)
    {line : String} (h : blankLine line = true) : okChunk w (write_line w line) := by
  simp only [write_line, h, if_true]
  refine ⟨List.chain'_singleton _, ?_, ?_⟩
  · intro x hx hb
    exact hw
  · simp [List.getLast?, h]

theorem okChunk_ensure_break (w : WriterState) : okChunk w (ensure_break w) := by
  unfold ensure_break
  by_cases hw : w.last_line_empty = true
  · simp only [hw, if_true]
    exact okChunk_pure rfl
  · have hw2 : w.last_line_empty = false := by
      cases h : w.last_line_empty
      · rfl
      · exact absurd h hw
    simp only [hw2, Bool.false_eq_true, if_false]
    exact okChunk_write_line_blank hw2 rfl

/-- Changing only the indent level preserves the chunk discipline. -/
theorem okChunk_indent {w : WriterState} {r : WriterState × List String}
    (h : okChunk w r) (n : Nat) :
    okChunk w ({ r.1 with indent_level := n }, r.2) :=
  ⟨h.1, h.2.1, h.2.2⟩

theorem okChunk_start_block {line : String} (h : blankLine line = false)
    (w : WriterState) : okChunk w (start_block w line) :=
  okChunk_indent (okChunk_write_line_nonblank h w) _

theorem okChunk_end_block (w : WriterState) : okChunk w (end_block w) :=
  okChunk_pure rfl

/-- After a chunk of only non-blank lines, at least one of them written,
the flag is clear. -/
theorem okChunk_flag_false_of_ne {w : WriterState} {r : WriterState × List String}
    (h : okChunk w r) (hnb : ∀ x ∈ r.2, blankLine x = false) (hne : r.2 ≠ []) :
    r.1.last_line_empty = false := by
  obtain ⟨-, -, hflag⟩ := h
  cases hg : r.2.getLast? with
  | none => exact absurd (List.getLast?_eq_none_iff.mp hg) hne
  | some y =>
      rw [hg] at hflag
      simp only [Option.elim] at hflag
      rw [hflag]
      exact hnb y (List.mem_of_mem_getLast? (Option.mem_def.mpr hg))

/-- All lines of a `wfold` satisfy a property its steps' lines satisfy. -/
theorem wfold_forall {P : String → Prop}
    {f : α → WriterState → WriterState × List String}
    (hf : ∀ x w, ∀ y ∈ (f x w).2, P y) :
    ∀ (xs : List α) (w : WriterState), ∀ y ∈ (wfold f xs w).2, P y := by
  intro xs
  induction xs with
  | nil => intro w y hy; cases hy
  | cons x rest ih =>
      intro w y hy
      rcases List.mem_append.mp hy with h1 | h2
      · exact hf x w y h1
      · exact ih (f x w).1 y h2

/-- Lines written by a non-blank `write_line` are non-blank. -/
theorem write_line_nonblank_out {line : String} (h : blankLine line = false)
    (w : WriterState) : ∀ y ∈ (write_line w line).2, blankLine y = false := by
  intro y hy
  simp only [write_line, h, Bool.false_eq_true, if_false, List.mem_singleton] at hy
  rw [hy, blankLine_append, h, Bool.and_false]

/-- One signal block of `write_component` is well-behaved. -/
theorem okChunk_signal_block (c : AtopileComponent) (signal_name : String)
    (wst : WriterState) :
    okChunk wst (wthen (wthen
        (write_line wst ("signal " ++ signal_name))
        (wfold (fun pin wst2 => write_line wst2 (signal_name ++ " ~ pin " ++ pin))
          (((alookup c.signals signal_name).getD []).insertionSort natLe)))
      (fun wst3 => write_line wst3 "")) := by
  have hsig : blankLine ("signal " ++ signal_name) = false :=
    blankLine_appL "signal " signal_name (by decide)
  have hpin : ∀ pin : String, blankLine (signal_name ++ " ~ pin " ++ pin) = false :=
    fun pin =>
      blankLine_appL _ pin (blankLine_appR signal_name " ~ pin " (by decide))
  have h1 : okChunk wst (write_line wst ("signal " ++ signal_name)) :=
    okChunk_write_line_nonblank hsig wst
  have h2 := okChunk_wfold
    (fun pin w2 => okChunk_write_line_nonblank (hpin pin) w2)
    (((alookup c.signals signal_name).getD []).insertionSort natLe)
    (write_line wst ("signal " ++ signal_name)).1
  have h12 := okChunk_wthen h1 h2
  refine okChunk_wthen h12 ?_
  refine okChunk_write_line_blank ?_ rfl
  refine okChunk_flag_false_of_ne h12 ?_ ?_
  · intro y hy
    rcases List.mem_append.mp hy with ha | hb
    · exact write_line_nonblank_out hsig wst y ha
    · exact wfold_forall (fun pin w2 => write_line_nonblank_out (hpin pin) w2) _ _ y hb
  · have hra2 : (write_line wst ("signal " ++ signal_name)).2
        = [indentPrefix wst.indent_level ++ ("signal " ++ signal_name)] := by
      simp [write_line, hsig]
    show (write_line wst ("signal " ++ signal_name)).2 ++ _ ≠ []
    simp [hra2]

theorem okChunk_write_component (c : AtopileComponent) (w : WriterState) :
    okChunk w (write_component c w) := by
  unfold write_component
  refine okChunk_wthen (okChunk_wthen (okChunk_wthen (okChunk_wthen
      (okChunk_start_block (blankLine_appR _ ":" (by decide)) w)
      (okChunk_wfold (fun signal_name wst => okChunk_signal_block c signal_name wst) _ _))
      ?_) ?_) (okChunk_end_block _)
  · cases alookup c.part.metadata "MPN" with
    | none => exact okChunk_pure rfl
    | some v =>
        exact okChunk_write_line_nonblank (blankLine_appR _ "\"" (by decide)) _
  · cases alookup c.part.metadata "Footprint" with
    | none => exact okChunk_pure rfl
    | some v =>
        exact okChunk_write_line_nonblank (blankLine_appR _ "\"" (by decide)) _

/-- One net of `write_module` is well-behaved. -/
theorem okChunk_write_module_net (nn : String) (refs : List String)
    (w : WriterState) : okChunk w (write_module_net nn refs w) := by
  by_cases hl : (dedupAdjacent (refs.insertionSort strLe)).length < 2
  · simp only [write_module_net, if_pos hl]
    exact okChunk_pure rfl
  · have hsig : blankLine ("signal " ++ nn) = false :=
      blankLine_appL "signal " nn (by decide)
    have hbind : ∀ port : String, blankLine (nn ++ " ~ " ++ port) = false :=
      fun port => blankLine_appL _ port (blankLine_appR nn " ~ " (by decide))
    simp only [write_module_net, if_neg hl]
    have h1 : okChunk w (write_line w ("signal " ++ nn)) :=
      okChunk_write_line_nonblank hsig w
    have h2 := okChunk_wfold
      (fun port w2 => okChunk_write_line_nonblank (hbind port) w2)
      (dedupAdjacent (refs.insertionSort strLe))
      (write_line w ("signal " ++ nn)).1
    have h12 := okChunk_seq h1 h2
    have hflag := okChunk_flag_false_of_ne h12 ?hnb ?hne
    case hnb =>
      intro y hy
      rcases List.mem_append.mp hy with ha | hb
      · exact write_line_nonblank_out hsig w y ha
      · exact wfold_forall (fun port w2 => write_line_nonblank_out (hbind port) w2) _ _ y hb
    case hne =>
      have hra2 : (write_line w ("signal " ++ nn)).2
          = [indentPrefix w.indent_level ++ ("signal " ++ nn)] := by
        simp [write_line, hsig]
      show (write_line w ("signal " ++ nn)).2 ++ _ ≠ []
      simp [hra2]
    have h3 := okChunk_write_line_blank hflag (by decide : blankLine "" = true)
    exact okChunk_seq h12 h3

/-- One definition of `write_module` is well-behaved. -/
theorem okChunk_definition_block (d : AtopileDefinition) (wst : WriterState) :
    okChunk wst (wthen (wthen
        (write_line wst (d.name ++ " = new " ++ d.symbol_name))
        (fun wst2 => if d.component.isSome then
            write_line wst2 (d.name ++ ".designator = \"" ++ d.name ++ "\"")
          else (wst2, [])))
      ensure_break) := by
  have h1 : okChunk wst (write_line wst (d.name ++ " = new " ++ d.symbol_name)) :=
    okChunk_write_line_nonblank
      (blankLine_appL _ d.symbol_name (blankLine_appR d.name " = new " (by decide))) wst
  have h2 : okChunk (write_line wst (d.name ++ " = new " ++ d.symbol_name)).1
      ((fun wst2 => if d.component.isSome then
          write_line wst2 (d.name ++ ".designator = \"" ++ d.name ++ "\"")
        else (wst2, []))
        (write_line wst (d.name ++ " = new " ++ d.symbol_name)).1) := by
    by_cases hc : d.component.isSome = true
    · simp only [hc, if_true]
      exact okChunk_write_line_nonblank (blankLine_appR _ "\"" (by decide)) _
    · simp only [hc, Bool.false_eq_true, if_false]
      exact okChunk_pure rfl
  exact okChunk_wthen (okChunk_wthen h1 h2) (okChunk_ensure_break _)

theorem okChunk_write_module (m : AtopileModule) (w : WriterState) :
    okChunk w (write_module m w) := by
  unfold write_module
  exact okChunk_wthen (okChunk_wthen (okChunk_wthen
      (okChunk_start_block (blankLine_appR _ ":" (by decide)) w)
      (okChunk_wfold (fun d wst => okChunk_definition_block d wst) _ _))
      (okChunk_wfold (fun nn wst => okChunk_write_module_net nn _ wst) _ _))
    (okChunk_end_block _)

/-- A fold of single `write_line`s over a nonempty list writes at least one
line. -/
theorem wfold_write_line_ne_nil (g : α → String) :
    ∀ (xs : List α), xs ≠ [] → ∀ w : WriterState,
      (wfold (fun a wst => write_line wst (g a)) xs w).2 ≠ [] := by
  intro xs hxs w
  cases xs with
  | nil => exact absurd rfl hxs
  | cons x rest =>
      show (write_line w (g x)).2 ++ _ ≠ []
      intro hcontra
      have h1 := (List.append_eq_nil.mp hcontra).1
      revert h1
      unfold write_line
      split <;> simp

theorem okChunk_write_file_run (p : AtopileProject) (file : AtopileFile) :
    okChunk newWriter (write_file_run p file) := by
  unfold write_file_run
  have himp : ∀ im : String × String,
      blankLine ("from \"" ++ im.1 ++ "\" import " ++ im.2) = false := fun im =>
    blankLine_appL _ im.2 (blankLine_appR _ "\" import " (by decide))
  have h1 := okChunk_wfold
    (fun (im : String × String) wst => okChunk_write_line_nonblank (himp im) wst)
    ((collect_imports p file.filename).insertionSort natLeFst) newWriter
  refine okChunk_wthen (okChunk_wthen h1 ?_) ?_
  · by_cases hlen :
        ((collect_imports p file.filename).insertionSort natLeFst).length > 0
    · simp only [hlen, if_true]
      refine okChunk_write_line_blank ?_ rfl
      refine okChunk_flag_false_of_ne h1 ?_ ?_
      · exact wfold_forall (fun im w2 => write_line_nonblank_out (himp im) w2) _ _
      · exact wfold_write_line_ne_nil _ _
          (List.ne_nil_of_length_pos hlen) _
    · simp only [hlen, if_false]
      exact okChunk_pure rfl
  · refine okChunk_wfold (fun sn wst => ?_) _ _
    cases alookup p.symbols_by_name sn with
    | none => exact okChunk_pure rfl
    | some sym =>
        cases sym with
        | component c => exact okChunk_write_component c wst
        | module m2 => exact okChunk_write_module m2 wst

/-- Claim C9: `ensure_break` writes a blank line exactly when the previous
line was non-blank, a second consecutive `ensure_break` writes nothing and
leaves the state fixed, and the text emitted for every compilation unit of
every project contains no doubled blank lines. -/
theorem c9_no_doubled_blank_lines :
    (∀ w : WriterState,
      (ensure_break w).2 = (if w.last_line_empty = true then [] else [""]))
    ∧ (∀ w : WriterState,
        ensure_break (ensure_break w).1 = ((ensure_break w).1, []))
    ∧ (∀ (p : AtopileProject) (file : AtopileFile),
        noDoubledBlank (write_file_lines p file)) := by
  refine ⟨?_, ?_, ?_⟩
  · intro w
    by_cases hw : w.last_line_empty = true
    · simp [ensure_break, hw]
    · have hw2 : w.last_line_empty = false := by
        cases h : w.last_line_empty
        · rfl
        · exact absurd h hw
      simp [ensure_break, hw2, write_line, blankLine]
  · intro w
    by_cases hw : w.last_line_empty = true
    · simp [ensure_break, hw]
    · have hw2 : w.last_line_empty = false := by
        cases h : w.last_line_empty
        · rfl
        · exact absurd h hw
      simp [ensure_break, hw2, write_line, blankLine]
  · intro p file
    exact (okChunk_write_file_run p file).1

/-- Witness for C8: a net whose three references collapse to one distinct
reference emits nothing; a net with two distinct references (one
duplicated) emits the signal line, the two deduplicated sorted bindings,
and the blank separator. -/
theorem c8_trivial_nets_skipped_witness :
    write_module_net "gnd" ["r1.P1", "r1.P1", "r1.P1"] newWriter = (newWriter, [])
    ∧ (write_module_net "vdd" ["r2.P1", "r1.P1", "r2.P1"] newWriter).2
        = ["signal vdd", "vdd ~ r1.P1", "vdd ~ r2.P1", ""] := by
  constructor
  · exact (c8_trivial_nets_skipped "gnd" ["r1.P1", "r1.P1", "r1.P1"] newWriter).1 (by decide)
  · exact ((c8_trivial_nets_skipped "vdd" ["r2.P1", "r1.P1", "r2.P1"] newWriter).2
      (by decide)).1.trans (by decide)

/-! ## Imports (claim C5) -/

theorem mem_insertPair (acc : List (String × String)) (x pr : String × String) :
    pr ∈ insertPair acc x ↔ pr ∈ acc ∨ pr = x := by
  unfold insertPair
  by_cases h : x ∈ acc
  · simp only [h, if_true]
    constructor
    · exact Or.inl
    · rintro (hp | rfl)
      · exact hp
      · exact h
  · simp [h, List.mem_append]

theorem insertPair_nodup {acc : List (String × String)} (h : acc.Nodup)
    (x : String × String) : (insertPair acc x).Nodup := by
  unfold insertPair
  by_cases hx : x ∈ acc
  · simpa [hx]
  · simp only [hx, if_false]
    rw [List.nodup_append]
    refine ⟨h, List.nodup_singleton x, ?_⟩
    intro a ha hb
    rw [List.mem_singleton] at hb
    subst hb
    exact hx ha

theorem mem_collect_imports_defs (symfiles : List (String × String))
    (pr : String × String) :
    ∀ (defs : List AtopileDefinition) (acc : List (String × String)),
      pr ∈ collect_imports_defs symfiles defs acc ↔
        pr ∈ acc ∨ ∃ d ∈ defs,
          alookup symfiles d.symbol_name = some pr.1 ∧ pr.2 = d.symbol_name := by
  intro defs
  induction defs with
  | nil => intro acc; simp [collect_imports_defs]
  | cons d rest ih =>
      intro acc
      cases hd : alookup symfiles d.symbol_name with
      | none =>
          simp only [collect_imports_defs, hd]
          rw [ih]
          constructor
          · rintro (hp | ⟨d2, hd2, hf, hs⟩)
            · exact Or.inl hp
            · exact Or.inr ⟨d2, List.mem_cons_of_mem _ hd2, hf, hs⟩
          · rintro (hp | ⟨d2, hd2, hf, hs⟩)
            · exact Or.inl hp
            · rcases List.mem_cons.mp hd2 with rfl | hd3
              · rw [hd] at hf
                cases hf
              · exact Or.inr ⟨d2, hd3, hf, hs⟩
      | some fn =>
          simp only [collect_imports_defs, hd]
          rw [ih, mem_insertPair]
          constructor
          · rintro ((hp | rfl) | ⟨d2, hd2, hf, hs⟩)
            · exact Or.inl hp
            · exact Or.inr ⟨d, List.mem_cons_self _ _, by simpa using hd, rfl⟩
            · exact Or.inr ⟨d2, List.mem_cons_of_mem _ hd2, hf, hs⟩
          · rintro (hp | ⟨d2, hd2, hf, hs⟩)
            · exact Or.inl (Or.inl hp)
            · rcases List.mem_cons.mp hd2 with rfl | hd3
              · rw [hd] at hf
                cases pr with
                | mk prf prs =>
                    cases hf
                    cases hs
                    exact Or.inl (Or.inr rfl)
              · exact Or.inr ⟨d2, hd3, hf, hs⟩

theorem collect_imports_defs_nodup (symfiles : List (String × String)) :
    ∀ (defs : List AtopileDefinition) {acc : List (String × String)},
      acc.Nodup → (collect_imports_defs symfiles defs acc).Nodup := by
  intro defs
  induction defs with
  | nil => intro acc h; exact h
  | cons d rest ih =>
      intro acc h
      cases hd : alookup symfiles d.symbol_name with
      | none => simpa [collect_imports_defs, hd] using ih h
      | some fn =>
          simp only [collect_imports_defs, hd]
          exact ih (insertPair_nodup h _)

theorem mem_collect_imports_syms (p : AtopileProject) (pr : String × String) :
    ∀ (names : List String) (acc : List (String × String)),
      pr ∈ collect_imports_syms p names acc ↔
        pr ∈ acc ∨ ∃ sn ∈ names, ∃ m : AtopileModule,
          alookup p.symbols_by_name sn = some (.module m)
          ∧ ∃ d ∈ m.definitions,
              alookup p.symbol_name_to_file_name d.symbol_name = some pr.1
              ∧ pr.2 = d.symbol_name := by
  intro names
  induction names with
  | nil => intro acc; simp [collect_imports_syms]
  | cons n rest ih =>
      intro acc
      have hsplit : ∀ rhs : Prop,
          (∃ sn ∈ n :: rest, ∃ m : AtopileModule,
            alookup p.symbols_by_name sn = some (.module m)
            ∧ ∃ d ∈ m.definitions,
                alookup p.symbol_name_to_file_name d.symbol_name = some pr.1
                ∧ pr.2 = d.symbol_name) ↔
          ((∃ m : AtopileModule,
            alookup p.symbols_by_name n = some (.module m)
            ∧ ∃ d ∈ m.definitions,
                alookup p.symbol_name_to_file_name d.symbol_name = some pr.1
                ∧ pr.2 = d.symbol_name)
          ∨ (∃ sn ∈ rest, ∃ m : AtopileModule,
            alookup p.symbols_by_name sn = some (.module m)
            ∧ ∃ d ∈ m.definitions,
                alookup p.symbol_name_to_file_name d.symbol_name = some pr.1
                ∧ pr.2 = d.symbol_name)) := by
        intro _
        constructor
        · rintro ⟨sn, hsn, hrest⟩
          rcases List.mem_cons.mp hsn with rfl | hsn2
          · exact Or.inl hrest
          · exact Or.inr ⟨sn, hsn2, hrest⟩
        · rintro (h1 | ⟨sn, hsn, hrest⟩)
          · exact ⟨n, List.mem_cons_self _ _, h1⟩
          · exact ⟨sn, List.mem_cons_of_mem _ hsn, hrest⟩
      cases hn : alookup p.symbols_by_name n with
      | none =>
          simp only [collect_imports_syms, hn]
          rw [ih, hsplit True]
          constructor
          · rintro (hp | hrest)
            · exact Or.inl hp
            · exact Or.inr (Or.inr hrest)
          · rintro (hp | (⟨m, hm, -⟩ | hrest))
            · exact Or.inl hp
            · rw [hn] at hm
              cases hm
            · exact Or.inr hrest
      | some sym =>
          cases sym with
          | component c =>
              simp only [collect_imports_syms, hn]
              rw [ih, hsplit True]
              constructor
              · rintro (hp | hrest)
                · exact Or.inl hp
                · exact Or.inr (Or.inr hrest)
              · rintro (hp | (⟨m, hm, -⟩ | hrest))
                · exact Or.inl hp
                · rw [hn] at hm
                  cases hm
                · exact Or.inr hrest
          | module m =>
              simp only [collect_imports_syms, hn]
              rw [ih, mem_collect_imports_defs, hsplit True]
              constructor
              · rintro ((hp | hdef) | hrest)
                · exact Or.inl hp
                · exact Or.inr (Or.inl ⟨m, hn, hdef⟩)
                · exact Or.inr (Or.inr hrest)
              · rintro (hp | (⟨m2, hm2, hdef⟩ | hrest))
                · exact Or.inl (Or.inl hp)
                · rw [hn] at hm2
                  injection hm2 with hm2
                  injection hm2 with hm2
                  subst hm2
                  exact Or.inl (Or.inr hdef)
                · exact Or.inr hrest

theorem collect_imports_syms_nodup (p : AtopileProject) :
    ∀ (names : List String) {acc : List (String × String)},
      acc.Nodup → (collect_imports_syms p names acc).Nodup := by
  intro names
  induction names with
  | nil => intro acc h; exact h
  | cons n rest ih =>
      intro acc h
      cases hn : alookup p.symbols_by_name n with
      | none => simpa [collect_imports_syms, hn] using ih h
      | some sym =>
          cases sym with
          | component c => simpa [collect_imports_syms, hn] using ih h
          | module m =>
              simp only [collect_imports_syms, hn]
              exact ih (collect_imports_defs_nodup _ _ h)

theorem empty_string_append (s : String) : "" ++ s = s := by
  cases s
  rfl

/-- Claim C5 as amended: for every compilation unit, `collect_imports`
yields exactly the pairs `(defining file, symbol)` of the definitions in
the modules the unit defines whose referenced symbol is defined in ANY
compilation unit — including, unlike the claim, the unit itself — the set
is duplicate-free, `write_file` emits it sorted by natural order on
filename, and each pair is emitted as its `from "<file>" import <symbol>`
line. -/
theorem c5_imports_characterization (p : AtopileProject) (file : AtopileFile)
    (hfile : alookup p.files_by_name file.filename = some file)
    (_hsyms : ∀ sn ∈ file.symbol_names, (alookup p.symbols_by_name sn).isSome) :
    (∀ pr : String × String,
      pr ∈ collect_imports p file.filename ↔
        ∃ sn ∈ file.symbol_names, ∃ m : AtopileModule,
          alookup p.symbols_by_name sn = some (.module m)
          ∧ ∃ d ∈ m.definitions,
              alookup p.symbol_name_to_file_name d.symbol_name = some pr.1
              ∧ pr.2 = d.symbol_name)
    ∧ (collect_imports p file.filename).Nodup
    ∧ ((collect_imports p file.filename).insertionSort natLeFst).Sorted natLeFst
    ∧ ((collect_imports p file.filename).insertionSort natLeFst).Perm
        (collect_imports p file.filename)
    ∧ (∀ pr ∈ (collect_imports p file.filename).insertionSort natLeFst,
        ("from \"" ++ pr.1 ++ "\" import " ++ pr.2) ∈ write_file_lines p file) := by
  refine ⟨?_, ?_, ?_, ?_, ?_⟩
  · intro pr
    unfold collect_imports
    rw [hfile]
    rw [mem_collect_imports_syms]
    simp
  · exact collect_imports_syms_nodup p _ List.nodup_nil
  · exact List.sorted_insertionSort natLeFst _
  · exact List.perm_insertionSort natLeFst _
  · intro pr hpr
    have himp : ∀ im : String × String,
        blankLine ("from \"" ++ im.1 ++ "\" import " ++ im.2) = false := fun im =>
      blankLine_appL _ im.2 (blankLine_appR _ "\" import " (by decide))
    have hout := (wfold_write_line_out
      (fun im : String × String => "from \"" ++ im.1 ++ "\" import " ++ im.2) himp
      ((collect_imports p file.filename).insertionSort natLeFst) newWriter).1
    unfold write_file_lines write_file_run
    simp only [wthen]
    refine List.mem_append_left _ (List.mem_append_left _ ?_)
    rw [hout]
    refine List.mem_map.mpr ⟨pr, hpr, ?_⟩
    show indentPrefix newWriter.indent_level ++ _ = _
    rw [show indentPrefix newWriter.indent_level = "" from rfl]
    exact empty_string_append _

/-- The schematic for the C5 counterexample: its component's sheet
(`"myproj"` from metadata) lands in file `myproj.ato`, the same file the
root module (project `"Myproj"`, lowercased) is written to. -/
def c5Schematic : Schematic where
  partArena := [⟨"R", [("1", ⟨"1", "P1"⟩)], []⟩]
  compArena := [⟨"r1", 0, [("Sheetname", "myproj")]⟩]
  netArena := []
  parts_by_name := [("R", 0)]
  components_by_name := [("r1", 0)]
  nets_by_name := []

/-- The project built from `c5Schematic`. -/
def c5Project : AtopileProject :=
  ((from_schematic "Myproj" c5Schematic).toOption).getD ⟨"", [], [], []⟩

/-- Claim C5 fails on the code: `collect_imports` never compares the
defining file against the current file, so the root module's reference to
the sheet symbol `myproj` — defined in `myproj.ato`, the very unit being
emitted — still yields the pair `("myproj.ato", "myproj")`, and
`write_file` emits the self-import line `from "myproj.ato" import myproj`
inside `myproj.ato` itself.  The claim requires no import line for a
symbol defined in the same unit. -/
theorem c5_self_import_emitted :
    exceptIsOk (from_schematic "Myproj" c5Schematic) = true
    ∧ alookup c5Project.symbol_name_to_file_name "myproj" = some "myproj.ato"
    ∧ collect_imports c5Project "myproj.ato"
        = [("library/R.ato", "R"), ("myproj.ato", "myproj")]
    ∧ write_file_lines c5Project
          ((alookup c5Project.files_by_name "myproj.ato").getD ⟨"", []⟩)
        = ["from \"library/R.ato\" import R", "from \"myproj.ato\" import myproj",
            "", "module Myproj:", "    myproj = new myproj", "", "module myproj:",
            "    r1 = new R", "    r1.designator = \"r1\"", ""] := by
  refine ⟨by decide, by decide, by decide, by decide⟩

/-- Witness for the amended C5 on the concrete project: the
characterization instantiated at the self-import pair, plus the
duplicate-freedom of the computed import set. -/
theorem c5_imports_characterization_witness :
    ((("myproj.ato", "myproj") ∈ collect_imports c5Project "myproj.ato" ↔
        ∃ sn ∈ (["myproj", "Myproj"] : List String), ∃ m : AtopileModule,
          alookup c5Project.symbols_by_name sn = some (.module m)
          ∧ ∃ d ∈ m.definitions,
              alookup c5Project.symbol_name_to_file_name d.symbol_name
                = some "myproj.ato"
              ∧ "myproj" = d.symbol_name)
      ∧ (collect_imports c5Project "myproj.ato").Nodup) := by
  have h := c5_imports_characterization c5Project ⟨"myproj.ato", ["myproj", "Myproj"]⟩
    (by decide) (by decide)
  exact ⟨h.1 ("myproj.ato", "myproj"), h.2.1⟩

/-! ## Symbol-table lemmas for the builder -/

theorem alookup_append (l1 l2 : List (String × α)) (k : String) :
    alookup (l1 ++ l2) k
      = match alookup l1 k with
        | some v => some v
        | none => alookup l2 k := by
  induction l1 with
  | nil => simp [alookup]
  | cons e rest ih =>
      by_cases h : e.1 = k
      · simp [alookup, h]
      · simpa [alookup, h] using ih

theorem define_symbol_error {p : AtopileProject} {fn : String} {sym : AtopileSymbol}
    {e : AtopileError} (h : define_symbol p fn sym = .error e) :
    e = .nameCollision sym.name := by
  unfold define_symbol at h
  by_cases hc : containsKey p.symbols_by_name sym.name = true
  · rw [if_pos hc] at h
    injection h with h
    exact h.symm
  · rw [if_neg hc] at h
    cases h

theorem define_symbol_ok {p : AtopileProject} {fn : String} {sym : AtopileSymbol}
    {p2 : AtopileProject} (h : define_symbol p fn sym = .ok p2) :
    containsKey p.symbols_by_name sym.name = false
    ∧ p2 = { p with
        files_by_name := pushFileSymbol p.files_by_name fn sym.name
        symbol_name_to_file_name :=
          insertOverwrite p.symbol_name_to_file_name sym.name fn
        symbols_by_name := p.symbols_by_name ++ [(sym.name, sym)] } := by
  unfold define_symbol at h
  by_cases hc : containsKey p.symbols_by_name sym.name = true
  · rw [if_pos hc] at h
    cases h
  · rw [if_neg hc] at h
    injection h with h
    exact ⟨by simpa using hc, h.symm⟩

theorem define_symbol_name {p : AtopileProject} {fn : String} {sym : AtopileSymbol}
    {p2 : AtopileProject} (h : define_symbol p fn sym = .ok p2) :
    p2.name = p.name := by
  rw [(define_symbol_ok h).2]

theorem define_symbol_contains_mono {p : AtopileProject} {fn : String}
    {sym : AtopileSymbol} {p2 : AtopileProject} (h : define_symbol p fn sym = .ok p2)
    {k : String} (hk : containsKey p.symbols_by_name k = true) :
    containsKey p2.symbols_by_name k = true := by
  rw [(define_symbol_ok h).2]
  show containsKey (p.symbols_by_name ++ [(sym.name, sym)]) k = true
  unfold containsKey at hk ⊢
  rw [alookup_append]
  cases hl : alookup p.symbols_by_name k with
  | none => rw [hl] at hk; cases hk
  | some v => rfl

theorem define_symbol_contains_self {p : AtopileProject} {fn : String}
    {sym : AtopileSymbol} {p2 : AtopileProject}
    (h : define_symbol p fn sym = .ok p2) :
    containsKey p2.symbols_by_name sym.name = true := by
  obtain ⟨hc, rfl⟩ := define_symbol_ok h
  show containsKey (p.symbols_by_name ++ [(sym.name, sym)]) sym.name = true
  unfold containsKey at hc ⊢
  rw [alookup_append]
  cases hl : alookup p.symbols_by_name sym.name with
  | none => simp [alookup]
  | some v => rw [hl] at hc; cases hc

theorem define_symbol_find_module {p : AtopileProject} {fn : String}
    {m : AtopileModule} {p2 : AtopileProject}
    (h : define_symbol p fn (.module m) = .ok p2) :
    find_module p2 m.name = some m := by
  obtain ⟨hc, rfl⟩ := define_symbol_ok h
  have hname : (AtopileSymbol.module m).name = m.name := rfl
  have halookup : alookup (p.symbols_by_name
      ++ [((AtopileSymbol.module m).name, AtopileSymbol.module m)]) m.name
      = some (.module m) := by
    rw [alookup_append]
    cases hl : alookup p.symbols_by_name m.name with
    | none => simp [alookup, hname]
    | some v =>
        unfold containsKey at hc
        rw [hname, hl] at hc
        cases hc
  simp only [find_module, halookup]

theorem update_module_name (p : AtopileProject) (mn : String)
    (f : AtopileModule → AtopileModule) : (update_module p mn f).name = p.name := rfl

theorem alookup_map_keyfix (g : (String × α) → (String × α))
    (hg : ∀ e, (g e).1 = e.1) (l : List (String × α)) (k : String) :
    (alookup (l.map g) k).isSome = (alookup l k).isSome := by
  induction l with
  | nil => rfl
  | cons e rest ih =>
      simp only [List.map_cons, alookup]
      rw [hg e]
      by_cases hk : e.1 = k
      · simp [hk]
      · simp [hk, ih]

theorem update_module_contains (p : AtopileProject) (mn : String)
    (f : AtopileModule → AtopileModule) (k : String) :
    containsKey (update_module p mn f).symbols_by_name k
      = containsKey p.symbols_by_name k := by
  unfold containsKey update_module
  refine alookup_map_keyfix _ ?_ _ _
  intro e
  by_cases h : e.1 = mn
  · simp only [if_pos h]
    cases e.2 <;> rfl
  · simp [if_neg h]

theorem find_module_contains {p : AtopileProject} {n : String} {m : AtopileModule}
    (h : find_module p n = some m) : containsKey p.symbols_by_name n = true := by
  unfold find_module at h
  unfold containsKey
  cases hl : alookup p.symbols_by_name n with
  | none => rw [hl] at h; cases h
  | some v => rfl

theorem partsPhaseGo_error (s : Schematic) :
    ∀ (entries : List (String × Nat)) (p : AtopileProject) (e : AtopileError),
      partsPhaseGo s entries p = .error e → ∃ x, e = .nameCollision x := by
  intro entries
  induction entries with
  | nil => intro p e h; cases h
  | cons entry rest ih =>
      intro p e h
      cases entry with
      | mk nm pid =>
          simp only [partsPhaseGo] at h
          cases hd : define_symbol p ("library/"
              ++ (s.partArena.getD pid emptyPart).name ++ ".ato")
              (.component
                { name := (s.partArena.getD pid emptyPart).name
                  signals := partSignals
                    (s.partArena.getD pid emptyPart).ports_by_terminal_identifier
                  part := s.partArena.getD pid emptyPart }) with
          | error e2 =>
              rw [hd] at h
              injection h with h
              exact ⟨_, by rw [← h, define_symbol_error hd]⟩
          | ok p2 =>
              rw [hd] at h
              exact ih p2 e h

theorem partsPhaseGo_name (s : Schematic) :
    ∀ (entries : List (String × Nat)) (p p2 : AtopileProject),
      partsPhaseGo s entries p = .ok p2 → p2.name = p.name := by
  intro entries
  induction entries with
  | nil => intro p p2 h; injection h with h; rw [h]
  | cons entry rest ih =>
      intro p p2 h
      cases entry with
      | mk nm pid =>
          simp only [partsPhaseGo] at h
          cases hd : define_symbol p ("library/"
              ++ (s.partArena.getD pid emptyPart).name ++ ".ato")
              (.component
                { name := (s.partArena.getD pid emptyPart).name
                  signals := partSignals
                    (s.partArena.getD pid emptyPart).ports_by_terminal_identifier
                  part := s.partArena.getD pid emptyPart }) with
          | error e2 => rw [hd] at h; cases h
          | ok pmid =>
              rw [hd] at h
              rw [ih pmid p2 h, define_symbol_name hd]

/-- The definition appended for a component in step 2. -/
def componentDefinition (s : Schematic) (cid : Nat) : AtopileDefinition :=
  { name := (s.compArena.getD cid emptyComponent).name
    symbol_name := (s.partArena.getD
        (s.compArena.getD cid emptyComponent).part emptyPart).name
    component := some cid }

theorem componentsPhaseGo_sheet_none {s : Schematic} {nm : String} {cid : Nat}
    {rest : List (String × Nat)} {p : AtopileProject} {sheets : List String}
    (hsv : sheet_for_component p.name (s.compArena.getD cid emptyComponent) = none) :
    componentsPhaseGo s ((nm, cid) :: rest) p sheets
      = .error (.panicked "failed to normalize sheet name") := by
  simp only [componentsPhaseGo, hsv]

theorem componentsPhaseGo_step_found {s : Schematic} {nm : String} {cid : Nat}
    {rest : List (String × Nat)} {p : AtopileProject} {sheets : List String}
    {sheet_name : String} {m : AtopileModule}
    (hsv : sheet_for_component p.name (s.compArena.getD cid emptyComponent)
        = some sheet_name)
    (hfm : find_module p sheet_name = some m) :
    componentsPhaseGo s ((nm, cid) :: rest) p sheets
      = componentsPhaseGo s rest
          (update_module p sheet_name (fun mm =>
            { mm with definitions := mm.definitions ++ [componentDefinition s cid] }))
          (if sheet_name ∈ sheets then sheets else sheets ++ [sheet_name]) := by
  simp only [componentsPhaseGo, hsv, hfm, Option.isSome_some, if_true, componentDefinition]

theorem componentsPhaseGo_step_deferr {s : Schematic} {nm : String} {cid : Nat}
    {rest : List (String × Nat)} {p : AtopileProject} {sheets : List String}
    {sheet_name : String} {e : AtopileError}
    (hsv : sheet_for_component p.name (s.compArena.getD cid emptyComponent)
        = some sheet_name)
    (hfm : find_module p sheet_name = none)
    (hdef : define_symbol p (sheet_name ++ ".ato")
        (.module { name := sheet_name, definitions := [], nets := [] }) = .error e) :
    componentsPhaseGo s ((nm, cid) :: rest) p sheets = .error e := by
  simp only [componentsPhaseGo, hsv, hfm, Option.isSome_none, Bool.false_eq_true,
    if_false, hdef]

theorem componentsPhaseGo_step_defok {s : Schematic} {nm : String} {cid : Nat}
    {rest : List (String × Nat)} {p : AtopileProject} {sheets : List String}
    {sheet_name : String} {p2 : AtopileProject}
    (hsv : sheet_for_component p.name (s.compArena.getD cid emptyComponent)
        = some sheet_name)
    (hfm : find_module p sheet_name = none)
    (hdef : define_symbol p (sheet_name ++ ".ato")
        (.module { name := sheet_name, definitions := [], nets := [] }) = .ok p2) :
    componentsPhaseGo s ((nm, cid) :: rest) p sheets
      = componentsPhaseGo s rest
          (update_module p2 sheet_name (fun mm =>
            { mm with definitions := mm.definitions ++ [componentDefinition s cid] }))
          (if sheet_name ∈ sheets then sheets else sheets ++ [sheet_name]) := by
  have hfind := define_symbol_find_module hdef
  simp only [componentsPhaseGo, hsv, hfm, Option.isSome_none, Bool.false_eq_true,
    if_false, hdef, hfind, componentDefinition]

theorem componentsPhaseGo_error (s : Schematic) (N : String) :
    ∀ (entries : List (String × Nat)) (p : AtopileProject) (sheets : List String)
      (e : AtopileError),
      p.name = N →
      (∀ en ∈ entries,
        (sheet_for_component N (s.compArena.getD en.2 emptyComponent)).isSome = true) →
      componentsPhaseGo s entries p sheets = .error e → ∃ x, e = .nameCollision x := by
  intro entries
  induction entries with
  | nil => intro p sheets e hpn hsheets h; cases h
  | cons en rest ih =>
      intro p sheets e hpn hsheets h
      cases en with
      | mk nm cid =>
          have hs := hsheets (nm, cid) (List.mem_cons_self _ _)
          have hstail : ∀ en ∈ rest,
              (sheet_for_component N (s.compArena.getD en.2 emptyComponent)).isSome
                = true :=
            fun en hen => hsheets en (List.mem_cons_of_mem _ hen)
          cases hsv : sheet_for_component p.name (s.compArena.getD cid emptyComponent) with
          | none =>
              have hs2 : (sheet_for_component p.name
                  (s.compArena.getD cid emptyComponent)).isSome = true := by
                rw [hpn]; exact hs
              rw [hsv] at hs2
              simp at hs2
          | some sheet_name =>
              cases hfm : find_module p sheet_name with
              | some m =>
                  rw [componentsPhaseGo_step_found hsv hfm] at h
                  exact ih _ _ e (by rw [update_module_name, hpn]) hstail h
              | none =>
                  cases hdef : define_symbol p (sheet_name ++ ".ato")
                      (.module { name := sheet_name, definitions := [], nets := [] }) with
                  | error e2 =>
                      rw [componentsPhaseGo_step_deferr hsv hfm hdef] at h
                      injection h with h
                      exact ⟨_, by rw [← h, define_symbol_error hdef]⟩
                  | ok p2 =>
                      rw [componentsPhaseGo_step_defok hsv hfm hdef] at h
                      exact ih _ _ e
                        (by rw [update_module_name, define_symbol_name hdef, hpn]) hstail h

theorem componentsPhaseGo_name (s : Schematic) :
    ∀ (entries : List (String × Nat)) (p : AtopileProject) (sheets : List String)
      (p2 : AtopileProject) (sheets2 : List String),
      componentsPhaseGo s entries p sheets = .ok (p2, sheets2) → p2.name = p.name := by
  intro entries
  induction entries with
  | nil =>
      intro p sheets p2 sheets2 h
      injection h with h
      injection h with h1 h2
      rw [← h1]
  | cons en rest ih =>
      intro p sheets p2 sheets2 h
      cases en with
      | mk nm cid =>
          cases hsv : sheet_for_component p.name (s.compArena.getD cid emptyComponent) with
          | none =>
              rw [componentsPhaseGo_sheet_none hsv] at h
              cases h
          | some sheet_name =>
              cases hfm : find_module p sheet_name with
              | some m =>
                  rw [componentsPhaseGo_step_found hsv hfm] at h
                  rw [ih _ _ _ _ h, update_module_name]
              | none =>
                  cases hdef : define_symbol p (sheet_name ++ ".ato")
                      (.module { name := sheet_name, definitions := [], nets := [] }) with
                  | error e2 =>
                      rw [componentsPhaseGo_step_deferr hsv hfm hdef] at h
                      cases h
                  | ok pmid =>
                      rw [componentsPhaseGo_step_defok hsv hfm hdef] at h
                      rw [ih _ _ _ _ h, update_module_name, define_symbol_name hdef]

/-- A component whose metadata has no `Sheetname` gets the (normalized)
project name as its sheet. -/
theorem sheet_for_component_default {N : String} {c : Component}
    (hmd : alookup c.metadata "Sheetname" = none)
    (hfix : normalize_part_name N = some (.ok N)) :
    sheet_for_component N c = some N := by
  unfold sheet_for_component
  rw [hmd]
  simp [hfix]

theorem componentsPhaseGo_contains (s : Schematic) (N : String)
    (hfix : normalize_part_name N = some (.ok N)) :
    ∀ (entries : List (String × Nat)) (p : AtopileProject) (sheets : List String)
      (p2 : AtopileProject) (sheets2 : List String),
      p.name = N →
      componentsPhaseGo s entries p sheets = .ok (p2, sheets2) →
      (containsKey p.symbols_by_name N = true
        ∨ ∃ en ∈ entries,
            alookup (s.compArena.getD en.2 emptyComponent).metadata "Sheetname" = none) →
      containsKey p2.symbols_by_name N = true := by
  intro entries
  induction entries with
  | nil =>
      intro p sheets p2 sheets2 hpn h hd
      injection h with h
      injection h with h1 h2
      rcases hd with hc | ⟨en, hen, -⟩
      · rw [← h1]
        exact hc
      · cases hen
  | cons en rest ih =>
      intro p sheets p2 sheets2 hpn h hd
      cases en with
      | mk nm cid =>
          cases hsv : sheet_for_component p.name (s.compArena.getD cid emptyComponent) with
          | none =>
              rw [componentsPhaseGo_sheet_none hsv] at h
              cases h
          | some sheet_name =>
              cases hfm : find_module p sheet_name with
              | some m =>
                  rw [componentsPhaseGo_step_found hsv hfm] at h
                  refine ih _ _ _ _ (by rw [update_module_name, hpn]) h ?_
                  rcases hd with hc | ⟨en2, hen2, hmd⟩
                  · exact Or.inl (by rw [update_module_contains]; exact hc)
                  · rcases List.mem_cons.mp hen2 with heq | hen3
                    · have hsn : sheet_name = N := by
                        rw [heq] at hmd
                        rw [hpn, sheet_for_component_default hmd hfix] at hsv
                        injection hsv with hsv
                        rw [hsv]
                      refine Or.inl ?_
                      rw [update_module_contains]
                      rw [hsn] at hfm
                      exact find_module_contains hfm
                    · exact Or.inr ⟨en2, hen3, hmd⟩
              | none =>
                  cases hdef : define_symbol p (sheet_name ++ ".ato")
                      (.module { name := sheet_name, definitions := [], nets := [] }) with
                  | error e2 =>
                      rw [componentsPhaseGo_step_deferr hsv hfm hdef] at h
                      cases h
                  | ok pmid =>
                      rw [componentsPhaseGo_step_defok hsv hfm hdef] at h
                      refine ih _ _ _ _
                        (by rw [update_module_name, define_symbol_name hdef, hpn]) h ?_
                      rcases hd with hc | ⟨en2, hen2, hmd⟩
                      · refine Or.inl ?_
                        rw [update_module_contains]
                        exact define_symbol_contains_mono hdef hc
                      · rcases List.mem_cons.mp hen2 with heq | hen3
                        · have hsn : sheet_name = N := by
                            rw [heq] at hmd
                            rw [hpn, sheet_for_component_default hmd hfix] at hsv
                            injection hsv with hsv
                            rw [hsv]
                          refine Or.inl ?_
                          rw [update_module_contains]
                          have hself := define_symbol_contains_self hdef
                          rw [show (AtopileSymbol.module
                              { name := sheet_name, definitions := [], nets := [] }).name
                              = sheet_name from rfl] at hself
                          rw [← hsn]
                          exact hself
                        · exact Or.inr ⟨en2, hen3, hmd⟩

/-- Registering the root module fails with a collision when the project
name is already a symbol. -/
theorem rootPhase_collision {p : AtopileProject}
    (h : containsKey p.symbols_by_name p.name = true) :
    rootPhase p = .error (.nameCollision p.name) := by
  unfold rootPhase define_symbol
  rw [show (AtopileSymbol.module
      { name := p.name, definitions := [], nets := [] }).name = p.name from rfl]
  rw [if_pos h]

/-- Claim C10 as amended: for every schematic containing at least one
component whose sheet name defaults to the project name, IF the capitalized
project name is a fixed point of the part-name normalization rule (e.g. it
is alphanumeric and starts with a letter), and every component's sheet name
normalizes (no panic), then `from_schematic` returns a name-collision
error: the lazily created default sheet module takes the normalized
capitalized project name as its symbol name, which here equals the name the
root module is registered under, so `define_symbol` fails.  (The original
claim, without the fixed-point condition, is refuted by
`c10_no_collision_when_normalization_changes_name`: the root module is
registered under the UNNORMALIZED capitalized name.) -/
theorem c10_root_collision (s : Schematic) (name N : String)
    (hcap : capitalize_project_name name = some N)
    (hfix : normalize_part_name N = some (.ok N))
    (hdefault : ∃ en ∈ s.components_by_name,
        alookup (s.compArena.getD en.2 emptyComponent).metadata "Sheetname" = none)
    (hsheets : ∀ en ∈ s.components_by_name,
        (sheet_for_component N (s.compArena.getD en.2 emptyComponent)).isSome = true) :
    ∃ x, from_schematic name s = .error (.nameCollision x) := by
  unfold from_schematic
  rw [hcap]
  cases hp1 : partsPhaseGo s s.parts_by_name
      { name := N, files_by_name := [], symbols_by_name := []
        symbol_name_to_file_name := [] } with
  | error e =>
      obtain ⟨x, rfl⟩ := partsPhaseGo_error s _ _ e hp1
      exact ⟨x, by simp [hp1]⟩
  | ok p1 =>
      have hp1name : p1.name = N := partsPhaseGo_name s _ _ _ hp1
      cases hp2 : componentsPhaseGo s s.components_by_name p1 [] with
      | error e =>
          obtain ⟨x, rfl⟩ := componentsPhaseGo_error s N _ _ _ e hp1name hsheets hp2
          exact ⟨x, by simp [hp1, hp2]⟩
      | ok pr =>
          cases pr with
          | mk p2 sheets2 =>
              have hp2name : p2.name = N := by
                rw [componentsPhaseGo_name s _ _ _ _ _ hp2, hp1name]
              have hcontains : containsKey p2.symbols_by_name N = true :=
                componentsPhaseGo_contains s N hfix _ _ _ _ _ hp1name hp2
                  (Or.inr hdefault)
              have hroot : rootPhase p2 = .error (.nameCollision p2.name) :=
                rootPhase_collision (by rw [hp2name]; exact hcontains)
              exact ⟨p2.name, by simp [hp1, hp2, hroot]⟩

/-- The schematic for the C10 witness: one component, no metadata. -/
def c10w : Schematic where
  partArena := []
  compArena := [⟨"c", 0, []⟩]
  netArena := []
  parts_by_name := []
  components_by_name := [("c", 0)]
  nets_by_name := []

/-- Witness for the amended C10: project `"myproj"` capitalizes to
`"Myproj"`, a fixed point of part-name normalization, and the schematic's
single component has no sheet metadata, so building fails with a name
collision. -/
theorem c10_root_collision_witness :
    ∃ x, from_schematic "myproj" c10w = .error (.nameCollision x) := by
  refine c10_root_collision c10w "myproj" "Myproj" (by decide) (by decide)
    ⟨("c", 0), List.mem_singleton.mpr rfl, by decide⟩ ?_
  intro en hen
  rcases List.mem_singleton.mp hen with rfl
  decide

/-! ## C3: net scoping

Infrastructure for the nets phase: the `place_in_root` / `net_module`
expressions of the source factored out, the references recorded for a net
in a module, and characterizations of each phase's effect on them. -/

/-- The `place_in_root` test of the nets loop. -/
def placeInRoot (sheets : List String) : Bool :=
  sheets.isEmpty || !(sheets.all (fun sh => sh == sheets.headD ""))

/-- The `net_module` choice of the nets loop: the root module when
`place_in_root`, else the single sheet. -/
def netOwner (project_name : String) (sheets : List String) : String :=
  if placeInRoot sheets then project_name else sheets.headD ""

/-- The references recorded for net `nn` in module `mn`; `[]` when the
module or the entry is absent (a module starts with no entry for a net and
gains one on the first recorded connection). -/
def netRefs (p : AtopileProject) (mn nn : String) : List String :=
  match find_module p mn with
  | some m => (alookup m.nets nn).getD []
  | none => []

/-- One net's inner loop: append one reference per connection to the owner
module's entry for the net. -/
def netFold (s : Schematic) (pr : Bool) (nm nn : String)
    (l : List ((Nat × String) × String)) (p : AtopileProject) : AtopileProject :=
  l.foldl (fun acc cs =>
    update_module acc nm (fun m =>
      { m with nets := (insertOverwrite m.nets nn
          (((alookup m.nets nn).getD []) ++ [connRef s pr cs.2 cs.1])) })) p

/-- All modules of the project have an empty net map (the state after the
parts, components and root phases). -/
def modulesNetsEmpty (p : AtopileProject) : Prop :=
  ∀ mn m, find_module p mn = some m → m.nets = []

theorem alookup_insertOverwrite_self (l : List (String × α)) (k : String) (v : α) :
    alookup (insertOverwrite l k v) k = some v := by
  induction l with
  | nil => simp [insertOverwrite, alookup]
  | cons e rest ih =>
      obtain ⟨k1, w⟩ := e
      by_cases h : k1 = k
      · simp [insertOverwrite, alookup, h]
      · simp [insertOverwrite, alookup, h, ih]

theorem alookup_insertOverwrite_other (l : List (String × α)) (k : String) (v : α)
    {k2 : String} (h : k2 ≠ k) :
    alookup (insertOverwrite l k v) k2 = alookup l k2 := by
  induction l with
  | nil =>
      have h2 : ¬ k = k2 := fun hh => h hh.symm
      simp [insertOverwrite, alookup, h2]
  | cons e rest ih =>
      obtain ⟨k1, w⟩ := e
      by_cases h1 : k1 = k
      · subst h1
        have h2 : ¬ k1 = k2 := fun hh => h hh.symm
        simp [insertOverwrite, alookup, h2]
      · simp [insertOverwrite, alookup, h1, ih]

theorem alookup_map_keyfix_eq (g : (String × α) → (String × α))
    (hg : ∀ e, (g e).1 = e.1) (l : List (String × α)) (k : String) :
    alookup (l.map g) k = Option.map (fun v => (g (k, v)).2) (alookup l k) := by
  induction l with
  | nil => rfl
  | cons e rest ih =>
      obtain ⟨k1, w⟩ := e
      rcases hge : g (k1, w) with ⟨k2, v⟩
      have hk2 : k2 = k1 := by
        have h2 := hg (k1, w)
        rw [hge] at h2
        exact h2
      subst hk2
      simp only [List.map_cons, hge, alookup]
      by_cases hk : k2 = k
      · subst hk
        simp [hge]
      · simp [hk, ih]

theorem find_module_update (p : AtopileProject) (mn : String)
    (f : AtopileModule → AtopileModule) (k : String) :
    find_module (update_module p mn f) k
      = if k = mn then Option.map f (find_module p k) else find_module p k := by
  have hg : ∀ e : String × AtopileSymbol,
      ((if e.1 = mn then
          match e.2 with
          | .module m => (e.1, AtopileSymbol.module (f m))
          | other => (e.1, other)
        else e) : String × AtopileSymbol).1 = e.1 := by
    intro e
    by_cases h : e.1 = mn
    · rw [if_pos h]
      cases e.2 <;> rfl
    · rw [if_neg h]
  unfold find_module update_module
  rw [alookup_map_keyfix_eq _ hg]
  cases halk : alookup p.symbols_by_name k with
  | none => by_cases hk : k = mn <;> simp [hk]
  | some sym =>
      cases sym with
      | component c => by_cases hk : k = mn <;> simp [hk]
      | module m => by_cases hk : k = mn <;> simp [hk]

theorem find_module_update_isSome (p : AtopileProject) (mn : String)
    (f : AtopileModule → AtopileModule) (k : String) :
    (find_module (update_module p mn f) k).isSome = (find_module p k).isSome := by
  rw [find_module_update]
  by_cases hk : k = mn <;> simp [hk]

theorem netRefs_update_preserve {p : AtopileProject} {mn : String}
    {f : AtopileModule → AtopileModule} (hf : ∀ m, (f m).nets = m.nets)
    (k nn : String) :
    netRefs (update_module p mn f) k nn = netRefs p k nn := by
  unfold netRefs
  rw [find_module_update]
  by_cases hk : k = mn
  · rw [if_pos hk]
    cases hfk : find_module p k with
    | none => rfl
    | some m0 => simp [hf m0]
  · rw [if_neg hk]

theorem netRefs_update_nets_self (p : AtopileProject) (mn nn : String)
    (x : String) (hp : (find_module p mn).isSome = true) :
    netRefs (update_module p mn (fun m =>
        { m with nets := (insertOverwrite m.nets nn
            (((alookup m.nets nn).getD []) ++ [x])) })) mn nn
      = netRefs p mn nn ++ [x] := by
  unfold netRefs
  rw [find_module_update, if_pos rfl]
  cases hfm : find_module p mn with
  | none => rw [hfm] at hp; cases hp
  | some m => simp [alookup_insertOverwrite_self]

theorem netRefs_update_nets_frame (p : AtopileProject) (mn nn : String)
    (x : String) (mn2 nn2 : String) (h : mn2 ≠ mn ∨ nn2 ≠ nn) :
    netRefs (update_module p mn (fun m =>
        { m with nets := (insertOverwrite m.nets nn
            (((alookup m.nets nn).getD []) ++ [x])) })) mn2 nn2
      = netRefs p mn2 nn2 := by
  unfold netRefs
  rw [find_module_update]
  by_cases hk : mn2 = mn
  · rcases h with h | h
    · exact absurd hk h
    · rw [if_pos hk, hk]
      cases hfm : find_module p mn with
      | none => rfl
      | some m => simp [alookup_insertOverwrite_other _ _ _ h]
  · rw [if_neg hk]

theorem netFold_cons (s : Schematic) (pr : Bool) (nm nn : String)
    (c : (Nat × String) × String) (l : List ((Nat × String) × String))
    (p : AtopileProject) :
    netFold s pr nm nn (c :: l) p
      = netFold s pr nm nn l (update_module p nm (fun m =>
          { m with nets := (insertOverwrite m.nets nn
              (((alookup m.nets nn).getD []) ++ [connRef s pr c.2 c.1])) })) := rfl

theorem netFold_name (s : Schematic) (pr : Bool) (nm nn : String) :
    ∀ (l : List ((Nat × String) × String)) (p : AtopileProject),
      (netFold s pr nm nn l p).name = p.name := by
  intro l
  induction l with
  | nil => intro p; rfl
  | cons c t ih =>
      intro p
      rw [netFold_cons, ih, update_module_name]

theorem netFold_find_isSome (s : Schematic) (pr : Bool) (nm nn : String) :
    ∀ (l : List ((Nat × String) × String)) (p : AtopileProject) (k : String),
      (find_module (netFold s pr nm nn l p) k).isSome = (find_module p k).isSome := by
  intro l
  induction l with
  | nil => intro p k; rfl
  | cons c t ih =>
      intro p k
      rw [netFold_cons, ih, find_module_update_isSome]

theorem netFold_refs_self (s : Schematic) (pr : Bool) (nm nn : String) :
    ∀ (l : List ((Nat × String) × String)) (p : AtopileProject),
      (find_module p nm).isSome = true →
      netRefs (netFold s pr nm nn l p) nm nn
        = netRefs p nm nn ++ l.map (fun cs => connRef s pr cs.2 cs.1) := by
  intro l
  induction l with
  | nil => intro p hp; simp [netFold]
  | cons c t ih =>
      intro p hp
      rw [netFold_cons, ih _ (by rw [find_module_update_isSome]; exact hp),
        netRefs_update_nets_self _ _ _ _ hp]
      simp

theorem netFold_refs_other (s : Schematic) (pr : Bool) (nm nn : String) :
    ∀ (l : List ((Nat × String) × String)) (p : AtopileProject) (mn2 nn2 : String),
      (mn2 ≠ nm ∨ nn2 ≠ nn) →
      netRefs (netFold s pr nm nn l p) mn2 nn2 = netRefs p mn2 nn2 := by
  intro l
  induction l with
  | nil => intro p mn2 nn2 h; rfl
  | cons c t ih =>
      intro p mn2 nn2 h
      rw [netFold_cons, ih _ _ _ h, netRefs_update_nets_frame _ _ _ _ _ _ h]

theorem netsPhaseGo_sheets_none {s : Schematic} {nm : String} {nid : Nat}
    {rest : List (String × Nat)} {p : AtopileProject}
    (hsh : netSheets s p.name (s.netArena.getD nid emptyNet).connections = none) :
    netsPhaseGo s ((nm, nid) :: rest) p
      = .error (.panicked "failed to normalize sheet name") := by
  simp only [netsPhaseGo, hsh]

theorem netsPhaseGo_module_none {s : Schematic} {nm : String} {nid : Nat}
    {rest : List (String × Nat)} {p : AtopileProject} {sheets : List String}
    (hsh : netSheets s p.name (s.netArena.getD nid emptyNet).connections = some sheets)
    (hfm : find_module p (netOwner p.name sheets) = none) :
    netsPhaseGo s ((nm, nid) :: rest) p = .error (.panicked "module not found") := by
  simp only [netOwner, placeInRoot] at hfm
  simp only [netsPhaseGo, hsh, hfm]

theorem netsPhaseGo_step {s : Schematic} {nm : String} {nid : Nat}
    {rest : List (String × Nat)} {p : AtopileProject} {sheets : List String}
    {m : AtopileModule}
    (hsh : netSheets s p.name (s.netArena.getD nid emptyNet).connections = some sheets)
    (hfm : find_module p (netOwner p.name sheets) = some m) :
    netsPhaseGo s ((nm, nid) :: rest) p
      = netsPhaseGo s rest
          (netFold s (placeInRoot sheets) (netOwner p.name sheets)
            (s.netArena.getD nid emptyNet).name
            ((s.netArena.getD nid emptyNet).connections.zip sheets) p) := by
  simp only [netOwner, placeInRoot] at hfm
  simp only [netsPhaseGo, hsh, hfm, netFold, netOwner, placeInRoot]

theorem netsPhaseGo_frame (s : Schematic) :
    ∀ (entries : List (String × Nat)) (p q : AtopileProject),
      netsPhaseGo s entries p = .ok q →
      q.name = p.name
      ∧ (∀ k, (find_module q k).isSome = (find_module p k).isSome)
      ∧ ∀ nn, (∀ en ∈ entries, (s.netArena.getD en.2 emptyNet).name ≠ nn) →
          ∀ mn, netRefs q mn nn = netRefs p mn nn := by
  intro entries
  induction entries with
  | nil =>
      intro p q h
      injection h with h
      subst h
      exact ⟨rfl, fun _ => rfl, fun _ _ _ => rfl⟩
  | cons en rest ih =>
      intro p q h
      obtain ⟨nm, nid⟩ := en
      cases hsh : netSheets s p.name (s.netArena.getD nid emptyNet).connections with
      | none => rw [netsPhaseGo_sheets_none hsh] at h; cases h
      | some sheets =>
          cases hfm : find_module p (netOwner p.name sheets) with
          | none => rw [netsPhaseGo_module_none hsh hfm] at h; cases h
          | some m =>
              rw [netsPhaseGo_step hsh hfm] at h
              obtain ⟨ihn, ihf, ihr⟩ := ih _ _ h
              refine ⟨?_, ?_, ?_⟩
              · rw [ihn, netFold_name]
              · intro k
                rw [ihf k, netFold_find_isSome]
              · intro nn hnn mn
                have hhd : (s.netArena.getD nid emptyNet).name ≠ nn :=
                  hnn (nm, nid) (List.mem_cons_self _ _)
                rw [ihr nn (fun en2 hen2 => hnn en2 (List.mem_cons_of_mem _ hen2)) mn,
                  netFold_refs_other s (placeInRoot sheets) (netOwner p.name sheets)
                    (s.netArena.getD nid emptyNet).name _ p mn nn
                    (Or.inr (Ne.symm hhd))]

theorem netsPhaseGo_target (s : Schematic) :
    ∀ (entries : List (String × Nat)) (p q : AtopileProject),
      (entries.map (fun en => (s.netArena.getD en.2 emptyNet).name)).Nodup →
      netsPhaseGo s entries p = .ok q →
      ∀ nm nid, (nm, nid) ∈ entries →
      ∀ sheets,
        netSheets s p.name (s.netArena.getD nid emptyNet).connections = some sheets →
        (∀ mn, netRefs p mn (s.netArena.getD nid emptyNet).name = []) →
        netRefs q (netOwner p.name sheets) (s.netArena.getD nid emptyNet).name
          = ((s.netArena.getD nid emptyNet).connections.zip sheets).map
              (fun cs => connRef s (placeInRoot sheets) cs.2 cs.1)
        ∧ ∀ mn, mn ≠ netOwner p.name sheets →
            netRefs q mn (s.netArena.getD nid emptyNet).name = [] := by
  intro entries
  induction entries with
  | nil => intro p q _ _ nm nid hmem; cases hmem
  | cons en rest ih =>
      intro p q hnd h nm nid hmem sheets hsh hclean
      obtain ⟨enm, eid⟩ := en
      rw [List.map_cons, List.nodup_cons] at hnd
      obtain ⟨hnd1, hnd2⟩ := hnd
      cases hsh0 : netSheets s p.name (s.netArena.getD eid emptyNet).connections with
      | none => rw [netsPhaseGo_sheets_none hsh0] at h; cases h
      | some sheets0 =>
          cases hfm : find_module p (netOwner p.name sheets0) with
          | none => rw [netsPhaseGo_module_none hsh0 hfm] at h; cases h
          | some m =>
              rw [netsPhaseGo_step hsh0 hfm] at h
              rcases List.mem_cons.mp hmem with heq | hmem2
              · injection heq with he1 he2
                subst he1
                subst he2
                rw [hsh0] at hsh
                injection hsh with hsh
                subst hsh
                obtain ⟨-, -, fr⟩ := netsPhaseGo_frame s rest _ _ h
                have hrest : ∀ en2 ∈ rest,
                    (s.netArena.getD en2.2 emptyNet).name
                      ≠ (s.netArena.getD nid emptyNet).name := by
                  intro en2 hen2 hcontra
                  exact hnd1 (List.mem_map.mpr ⟨en2, hen2, hcontra⟩)
                have hframe := fr (s.netArena.getD nid emptyNet).name hrest
                constructor
                · rw [hframe, netFold_refs_self s (placeInRoot sheets0)
                      (netOwner p.name sheets0) (s.netArena.getD nid emptyNet).name
                      _ p (by rw [hfm]; rfl), hclean]
                  simp
                · intro mn hmn
                  rw [hframe mn, netFold_refs_other s (placeInRoot sheets0)
                      (netOwner p.name sheets0) (s.netArena.getD nid emptyNet).name
                      _ p mn _ (Or.inl hmn)]
                  exact hclean mn
              · have hheadne : (s.netArena.getD eid emptyNet).name
                    ≠ (s.netArena.getD nid emptyNet).name := by
                  intro hcontra
                  exact hnd1 (List.mem_map.mpr ⟨(nm, nid), hmem2, hcontra.symm⟩)
                have hp2n : (netFold s (placeInRoot sheets0) (netOwner p.name sheets0)
                    (s.netArena.getD eid emptyNet).name
                    ((s.netArena.getD eid emptyNet).connections.zip sheets0) p).name
                      = p.name := netFold_name s _ _ _ _ p
                have hclean2 : ∀ mn,
                    netRefs (netFold s (placeInRoot sheets0) (netOwner p.name sheets0)
                      (s.netArena.getD eid emptyNet).name
                      ((s.netArena.getD eid emptyNet).connections.zip sheets0) p)
                      mn (s.netArena.getD nid emptyNet).name = [] := by
                  intro mn
                  rw [netFold_refs_other s (placeInRoot sheets0)
                      (netOwner p.name sheets0) (s.netArena.getD eid emptyNet).name
                      _ p mn _ (Or.inr (Ne.symm hheadne))]
                  exact hclean mn
                have hsh2 : netSheets s (netFold s (placeInRoot sheets0)
                    (netOwner p.name sheets0) (s.netArena.getD eid emptyNet).name
                    ((s.netArena.getD eid emptyNet).connections.zip sheets0) p).name
                    (s.netArena.getD nid emptyNet).connections = some sheets := by
                  rw [hp2n]
                  exact hsh
                obtain ⟨c1, c2⟩ := ih _ _ hnd2 h nm nid hmem2 sheets hsh2 hclean2
                rw [hp2n] at c1 c2
                exact ⟨c1, c2⟩

theorem define_symbol_symbols {p : AtopileProject} {fn : String}
    {sym : AtopileSymbol} {p2 : AtopileProject}
    (h : define_symbol p fn sym = .ok p2) :
    p2.symbols_by_name = p.symbols_by_name ++ [(sym.name, sym)] := by
  rw [(define_symbol_ok h).2]

theorem modulesNetsEmpty_define {p : AtopileProject} {fn : String}
    {sym : AtopileSymbol} {p2 : AtopileProject}
    (h : define_symbol p fn sym = .ok p2)
    (hsym : ∀ m, sym = .module m → m.nets = [])
    (hp : modulesNetsEmpty p) : modulesNetsEmpty p2 := by
  intro mn m hm
  unfold find_module at hm
  rw [define_symbol_symbols h, alookup_append] at hm
  cases halk : alookup p.symbols_by_name mn with
  | some sym2 =>
      rw [halk] at hm
      refine hp mn m ?_
      unfold find_module
      rw [halk]
      exact hm
  | none =>
      rw [halk] at hm
      cases sym with
      | component c =>
          by_cases hs : (AtopileSymbol.component c).name = mn
          · have h2 : alookup
                [((AtopileSymbol.component c).name, AtopileSymbol.component c)] mn
                = some (.component c) := by simp [alookup, hs]
            rw [h2] at hm
            cases hm
          · have h2 : alookup
                [((AtopileSymbol.component c).name, AtopileSymbol.component c)] mn
                = none := by simp [alookup, hs]
            rw [h2] at hm
            cases hm
      | module m2 =>
          by_cases hs : (AtopileSymbol.module m2).name = mn
          · have h2 : alookup
                [((AtopileSymbol.module m2).name, AtopileSymbol.module m2)] mn
                = some (.module m2) := by simp [alookup, hs]
            rw [h2] at hm
            injection hm with hm
            rw [← hm]
            exact hsym m2 rfl
          · have h2 : alookup
                [((AtopileSymbol.module m2).name, AtopileSymbol.module m2)] mn
                = none := by simp [alookup, hs]
            rw [h2] at hm
            cases hm

theorem modulesNetsEmpty_update {p : AtopileProject} {mn : String}
    {f : AtopileModule → AtopileModule} (hf : ∀ m, (f m).nets = m.nets)
    (hp : modulesNetsEmpty p) : modulesNetsEmpty (update_module p mn f) := by
  intro k m hm
  rw [find_module_update] at hm
  by_cases hk : k = mn
  · rw [if_pos hk] at hm
    cases hfk : find_module p k with
    | none => rw [hfk] at hm; cases hm
    | some m0 =>
        rw [hfk] at hm
        injection hm with hm
        rw [← hm, hf m0]
        exact hp k m0 hfk
  · rw [if_neg hk] at hm
    exact hp k m hm

theorem netRefs_of_netsEmpty {p : AtopileProject} (hp : modulesNetsEmpty p)
    (mn nn : String) : netRefs p mn nn = [] := by
  unfold netRefs
  cases hfm : find_module p mn with
  | none => rfl
  | some m =>
      show (alookup m.nets nn).getD [] = []
      rw [hp mn m hfm]
      rfl

theorem partsPhaseGo_netsEmpty (s : Schematic) :
    ∀ (entries : List (String × Nat)) (p p2 : AtopileProject),
      partsPhaseGo s entries p = .ok p2 → modulesNetsEmpty p → modulesNetsEmpty p2 := by
  intro entries
  induction entries with
  | nil =>
      intro p p2 h hp
      injection h with h
      rw [← h]
      exact hp
  | cons entry rest ih =>
      intro p p2 h hp
      cases entry with
      | mk nm pid =>
          simp only [partsPhaseGo] at h
          cases hd : define_symbol p ("library/"
              ++ (s.partArena.getD pid emptyPart).name ++ ".ato")
              (.component
                { name := (s.partArena.getD pid emptyPart).name
                  signals := partSignals
                    (s.partArena.getD pid emptyPart).ports_by_terminal_identifier
                  part := s.partArena.getD pid emptyPart }) with
          | error e2 => rw [hd] at h; cases h
          | ok pmid =>
              rw [hd] at h
              exact ih pmid p2 h
                (modulesNetsEmpty_define hd (fun m2 hmm => by cases hmm) hp)

theorem componentsPhaseGo_netsEmpty (s : Schematic) :
    ∀ (entries : List (String × Nat)) (p : AtopileProject) (sheets : List String)
      (p2 : AtopileProject) (sheets2 : List String),
      componentsPhaseGo s entries p sheets = .ok (p2, sheets2) →
      modulesNetsEmpty p → modulesNetsEmpty p2 := by
  intro entries
  induction entries with
  | nil =>
      intro p sheets p2 sheets2 h hp
      injection h with h
      injection h with h1 h2
      rw [← h1]
      exact hp
  | cons en rest ih =>
      intro p sheets p2 sheets2 h hp
      cases en with
      | mk nm cid =>
          cases hsv : sheet_for_component p.name (s.compArena.getD cid emptyComponent) with
          | none => rw [componentsPhaseGo_sheet_none hsv] at h; cases h
          | some sheet_name =>
              cases hfm : find_module p sheet_name with
              | some m =>
                  rw [componentsPhaseGo_step_found hsv hfm] at h
                  exact ih _ _ _ _ h (modulesNetsEmpty_update (fun m2 => rfl) hp)
              | none =>
                  cases hdef : define_symbol p (sheet_name ++ ".ato")
                      (.module { name := sheet_name, definitions := [], nets := [] }) with
                  | error e2 =>
                      rw [componentsPhaseGo_step_deferr hsv hfm hdef] at h
                      cases h
                  | ok pmid =>
                      rw [componentsPhaseGo_step_defok hsv hfm hdef] at h
                      exact ih _ _ _ _ h (modulesNetsEmpty_update (fun m2 => rfl)
                        (modulesNetsEmpty_define hdef
                          (fun m2 hmm => by injection hmm with h2; rw [← h2]) hp))

theorem rootPhase_name {p p2 : AtopileProject} (h : rootPhase p = .ok p2) :
    p2.name = p.name := by
  unfold rootPhase at h
  exact define_symbol_name h

theorem rootPhase_netsEmpty {p p2 : AtopileProject} (h : rootPhase p = .ok p2)
    (hp : modulesNetsEmpty p) : modulesNetsEmpty p2 := by
  unfold rootPhase at h
  exact modulesNetsEmpty_define h
    (fun m hmm => by injection hmm with h2; rw [← h2]) hp

theorem sheetsPhase_refs {sheet_names : List String} {p q : AtopileProject}
    (h : sheetsPhase sheet_names p = .ok q) :
    q.name = p.name ∧ ∀ mn nn, netRefs q mn nn = netRefs p mn nn := by
  unfold sheetsPhase at h
  cases hfm : find_module p p.name with
  | none => rw [hfm] at h; cases h
  | some m =>
      rw [hfm] at h
      injection h with h
      subst h
      suffices hgen : ∀ (l : List String) (p0 : AtopileProject),
          ((l.foldl (fun acc sheet_name => update_module acc p.name (fun m =>
            { m with definitions := m.definitions ++
                [{ name := sheet_name, symbol_name := sheet_name,
                   component := none }] })) p0).name = p0.name
          ∧ ∀ mn nn, netRefs (l.foldl (fun acc sheet_name =>
              update_module acc p.name (fun m =>
                { m with definitions := m.definitions ++
                    [{ name := sheet_name, symbol_name := sheet_name,
                       component := none }] })) p0) mn nn = netRefs p0 mn nn) by
        exact hgen sheet_names p
      intro l
      induction l with
      | nil => intro p0; exact ⟨rfl, fun _ _ => rfl⟩
      | cons sn t ih =>
          intro p0
          rw [List.foldl_cons]
          refine ⟨?_, ?_⟩
          · rw [(ih _).1, update_module_name]
          · intro mn nn
            rw [(ih _).2 mn nn]
            exact @netRefs_update_preserve p0 p.name
              (fun m => { m with definitions := m.definitions ++
                  [{ name := sn, symbol_name := sn, component := none }] })
              (fun _ => rfl) mn nn

theorem netSheets_cons {s : Schematic} {N : String} {c : Nat × String}
    {cs : List (Nat × String)} {sheets : List String}
    (h : netSheets s N (c :: cs) = some sheets) :
    ∃ a as, sheets = a :: as
      ∧ sheet_for_component N (s.compArena.getD c.1 emptyComponent) = some a
      ∧ netSheets s N cs = some as := by
  unfold netSheets at h
  cases hf : sheet_for_component N (s.compArena.getD c.1 emptyComponent) with
  | none => rw [hf] at h; cases h
  | some a =>
      rw [hf] at h
      cases hm : netSheets s N cs with
      | none => rw [hm] at h; cases h
      | some as =>
          rw [hm] at h
          injection h with h
          exact ⟨a, as, h.symm, rfl, rfl⟩

theorem netSheets_nil_iff {s : Schematic} {N : String} {conns : List (Nat × String)}
    {sheets : List String} (h : netSheets s N conns = some sheets) :
    sheets = [] ↔ conns = [] := by
  cases conns with
  | nil =>
      unfold netSheets at h
      injection h with h
      simp [← h]
  | cons c cs =>
      obtain ⟨a, as, rfl, -, -⟩ := netSheets_cons h
      simp

theorem placeInRoot_iff (sheets : List String) :
    placeInRoot sheets = true
      ↔ (sheets = [] ∨ ∃ a ∈ sheets, ∃ b ∈ sheets, a ≠ b) := by
  cases sheets with
  | nil => simp [placeInRoot]
  | cons x t =>
      have hpr : placeInRoot (x :: t)
          = !((x :: t).all (fun sh => sh == x)) := by
        simp [placeInRoot]
      rw [hpr]
      constructor
      · intro hall
        refine Or.inr ?_
        by_contra hno
        push_neg at hno
        have hta : (x :: t).all (fun sh => sh == x) = true :=
          List.all_eq_true.mpr (fun u hu =>
            beq_iff_eq.mpr (hno u hu x (List.mem_cons_self _ _)))
        rw [hta] at hall
        cases hall
      · intro hor
        rcases hor with hnil | ⟨a, ha, b, hb, hab⟩
        · exact absurd hnil (List.cons_ne_nil x t)
        · by_cases hAll : (x :: t).all (fun sh => sh == x) = true
          · have hax : a = x := by
              have := List.all_eq_true.mp hAll a ha
              simpa using this
            have hbx : b = x := by
              have := List.all_eq_true.mp hAll b hb
              simpa using this
            exact absurd (hax.trans hbx.symm) hab
          · simp [Bool.not_eq_true] at hAll
            simp [hAll]

theorem placeInRoot_false {sheets : List String} (h : placeInRoot sheets = false) :
    sheets ≠ [] ∧ ∀ sh ∈ sheets, sh = sheets.headD "" := by
  cases sheets with
  | nil => exact absurd h (by simp [placeInRoot])
  | cons x t =>
      refine ⟨List.cons_ne_nil x t, ?_⟩
      have hall : (x :: t).all (fun sh => sh == (x :: t).headD "") = true := by
        unfold placeInRoot at h
        simp only [List.isEmpty_cons, Bool.false_or] at h
        cases hAll : (x :: t).all (fun sh => sh == (x :: t).headD "") with
        | true => rfl
        | false => rw [hAll] at h; cases h
      intro sh hsh
      have := List.all_eq_true.mp hall sh hsh
      simpa using this

/-- Claim C3: for every net of a schematic the Project Builder accepts
(net names pairwise distinct), the scope decision places the net in the
root module exactly when it has zero connections or its connections span
more than one distinct sheet, and otherwise in the single sheet's module
(every connection's sheet is then that single sheet); the owning module
records one reference per connection — `<sheet>.<component>.<signal>` in
the root case, `<component>.<signal>` in the sheet-local case — and every
other module records nothing for that net (a net with no recorded
connection has no entry at all, read as the empty reference list). -/
theorem c3_net_scoping (s : Schematic) (name : String) (proj : AtopileProject)
    (hok : from_schematic name s = .ok proj)
    (hnodup : (s.nets_by_name.map (fun en =>
        (s.netArena.getD en.2 emptyNet).name)).Nodup)
    (en : String × Nat) (hen : en ∈ s.nets_by_name)
    (net : Net) (hnetv : s.netArena.getD en.2 emptyNet = net)
    (sheets : List String)
    (hsheets : netSheets s proj.name net.connections = some sheets) :
    (placeInRoot sheets = true
      ↔ (net.connections = [] ∨ ∃ a ∈ sheets, ∃ b ∈ sheets, a ≠ b))
    ∧ (placeInRoot sheets = false
      → sheets ≠ [] ∧ ∀ sh ∈ sheets, sh = sheets.headD "")
    ∧ netRefs proj (netOwner proj.name sheets) net.name
        = (net.connections.zip sheets).map
            (fun cs => connRef s (placeInRoot sheets) cs.2 cs.1)
    ∧ (∀ mn, mn ≠ netOwner proj.name sheets → netRefs proj mn net.name = []) := by
  subst hnetv
  unfold from_schematic at hok
  cases hcap : capitalize_project_name name with
  | none => rw [hcap] at hok; cases hok
  | some N =>
  simp only [hcap] at hok
  cases hp1 : partsPhaseGo s s.parts_by_name
      { name := N, files_by_name := [], symbols_by_name := []
        symbol_name_to_file_name := [] } with
  | error e => rw [hp1] at hok; cases hok
  | ok p1 =>
  simp only [hp1] at hok
  cases hp2 : componentsPhaseGo s s.components_by_name p1 [] with
  | error e => rw [hp2] at hok; cases hok
  | ok pr =>
  obtain ⟨p2, sheet_names⟩ := pr
  simp only [hp2] at hok
  cases hp3 : rootPhase p2 with
  | error e => rw [hp3] at hok; cases hok
  | ok p3 =>
  simp only [hp3] at hok
  cases hp4 : netsPhaseGo s s.nets_by_name p3 with
  | error e => rw [hp4] at hok; cases hok
  | ok p4 =>
  simp only [hp4] at hok
  have hp1n : p1.name = N := by
    rw [partsPhaseGo_name s _ _ _ hp1]
  have hp2n : p2.name = N := by
    rw [componentsPhaseGo_name s _ _ _ _ _ hp2, hp1n]
  have hp3n : p3.name = N := by
    rw [rootPhase_name hp3, hp2n]
  obtain ⟨hfrn, -, -⟩ := netsPhaseGo_frame s s.nets_by_name p3 p4 hp4
  have hp4n : p4.name = N := by rw [hfrn, hp3n]
  obtain ⟨hsn, hsr⟩ := sheetsPhase_refs hok
  have hprojn : proj.name = N := by rw [hsn, hp4n]
  rw [hprojn] at hsheets
  have hinit : modulesNetsEmpty
      { name := N, files_by_name := [], symbols_by_name := []
        symbol_name_to_file_name := [] } := by
    intro mn m hm
    simp [find_module, alookup] at hm
  have hclean3 : modulesNetsEmpty p3 :=
    rootPhase_netsEmpty hp3
      (componentsPhaseGo_netsEmpty s _ _ _ _ _ hp2
        (partsPhaseGo_netsEmpty s _ _ _ hp1 hinit))
  have hclean : ∀ mn, netRefs p3 mn (s.netArena.getD en.2 emptyNet).name = [] :=
    fun mn => netRefs_of_netsEmpty hclean3 mn _
  have hsh3 : netSheets s p3.name (s.netArena.getD en.2 emptyNet).connections
      = some sheets := by
    rw [hp3n]
    exact hsheets
  obtain ⟨ht1, ht2⟩ := netsPhaseGo_target s s.nets_by_name p3 p4 hnodup hp4
    en.1 en.2 (by simpa using hen) sheets hsh3 hclean
  rw [hp3n] at ht1 ht2
  refine ⟨?_, ?_, ?_, ?_⟩
  · rw [placeInRoot_iff, netSheets_nil_iff hsheets]
  · exact fun hpr => placeInRoot_false hpr
  · rw [hprojn, hsr]
    exact ht1
  · intro mn hmn
    rw [hprojn] at hmn
    rw [hsr]
    exact ht2 mn hmn

/-- The schematic for the C3 witness: one part with one port, two
components on different sheets, one net connecting them. -/
def c3w : Schematic where
  partArena := [⟨"R", [("1", ⟨"1", "p1"⟩)], []⟩]
  compArena := [⟨"c1", 0, [("Sheetname", "A")]⟩, ⟨"c2", 0, [("Sheetname", "B")]⟩]
  netArena := [⟨"n1", .unknown, [(0, "1"), (1, "1")]⟩]
  parts_by_name := [("R", 0)]
  components_by_name := [("c1", 0), ("c2", 1)]
  nets_by_name := [("n1", 0)]

/-- The project built for the C3 witness. -/
def c3Project : AtopileProject :=
  (from_schematic "proj" c3w).toOption.getD ⟨"", [], [], []⟩

/-- Witness for C3: the net spanning sheets `A` and `B` is recorded in the
root module with fully qualified references, and nowhere else. -/
theorem c3_net_scoping_witness :
    (placeInRoot ["A", "B"] = true
      ↔ ((⟨"n1", .unknown, [(0, "1"), (1, "1")]⟩ : Net).connections = []
          ∨ ∃ a ∈ ["A", "B"], ∃ b ∈ ["A", "B"], a ≠ b))
    ∧ (placeInRoot ["A", "B"] = false
      → ["A", "B"] ≠ [] ∧ ∀ sh ∈ ["A", "B"], sh = ["A", "B"].headD "")
    ∧ netRefs c3Project (netOwner c3Project.name ["A", "B"])
          (⟨"n1", .unknown, [(0, "1"), (1, "1")]⟩ : Net).name
        = ((⟨"n1", .unknown, [(0, "1"), (1, "1")]⟩ : Net).connections.zip
            ["A", "B"]).map
            (fun cs => connRef c3w (placeInRoot ["A", "B"]) cs.2 cs.1)
    ∧ (∀ mn, mn ≠ netOwner c3Project.name ["A", "B"] →
        netRefs c3Project mn (⟨"n1", .unknown, [(0, "1"), (1, "1")]⟩ : Net).name
          = []) :=
  c3_net_scoping c3w "proj" c3Project (by decide) (by decide) ("n1", 0) (by decide)
    ⟨"n1", .unknown, [(0, "1"), (1, "1")]⟩ (by decide) ["A", "B"] (by decide)

end DiodeCli
